import Mathlib

/-!
Shared-session calculator server (`server.c`).

A shallow embedding of the session registry (`map_insert`, `map_find`,
`map_delete`), the numeric-literal detector (`is_str_numeric`), the command
interpreter (`process_message`), the renderer (`session_to_str`), the
connection table (`register_browser`, `broadcast`) and the session files
(`save_session`, `load_all_sessions`) of `server.c`, followed by theorems about
them.

Conventions of the embedding.

* A C string is represented by the list of its characters before the
  terminating NUL; reading `str[i]` at `i = strlen str` gives NUL.
* `double` is an abstract type `V`; the libc conversion `strtod` and the four
  arithmetic operators are taken as parameters (`Arith V`), and so are the
  comparison with 1000 and the two `sprintf` conversions in `session_to_str`
  (`Render V`).
* A singly linked list of `node_t` is a `List`; the `next` pointer of a node is
  the tail of the list. The session a node owns is stored in the node.
* Undefined behaviour (dereferencing a null or an uninitialised pointer, a
  write outside an array, such as a line longer than `line[32]` in
  `session_to_str`) is the result `none`.
* `malloc` does not initialise the block it returns: the contents of the block
  are an input of `map_insert`. Allocation is taken to succeed. In the same
  way the value of a local variable that is read before any assignment is an
  input.
* A message fits the buffer `data` that `process_message` copies it into, and
  the rendered session fits `result` (`BUFFER_LEN` comes from `net_util.h`).
* What the functions of `net_util.h` and libc do outside the program is given
  as inputs and outputs: the received join message and the results of `rand()`
  are arguments, the calls of `send_message` are a returned list, and the files
  of the data directory are a map from session identifiers to records.
-/

namespace Server

/-! ## Data model -/

/-- The macro `NUM_VARIABLES`. -/
abbrev NUM_VARIABLES : Nat := 26

/-- The macro `NUM_SESSIONS`. -/
abbrev NUM_SESSIONS : Int := 128

/-- The operations on `double` that the server takes from the C library and
the language: the value `0.0`, `strtod(token, NULL)` and `+ - * /`. -/
structure Arith (V : Type) where
  zero : V
  strtod : List Char → V
  add : V → V → V
  sub : V → V → V
  mul : V → V → V
  div : V → V → V

/-- The struct `session_t`: 26 used flags (the C field `variables`, here `used`
because the C name is a reserved word) and 26 values. -/
structure session_t (V : Type) where
  used : Fin NUM_VARIABLES → Bool
  values : Fin NUM_VARIABLES → V

/-- The struct `node_t`; the field `next` is the rest of the list. -/
structure node_t (V : Type) where
  key : Int
  session : session_t V

/-- The struct `head_t`: the counter `size` and the list of nodes. -/
structure head_t (V : Type) where
  size : Int
  list : List (node_t V)

variable {V : Type}

/-- The statically initialised `session_list`: size 0 and a null list. -/
def head_t.empty : head_t V := ⟨0, []⟩

/-- The keys of the nodes of a registry, in list order. -/
def head_t.keys (h : head_t V) : List Int := h.list.map node_t.key

/-! ## The session registry -/

/-- The loop of `map_insert` that walks to the last node and links the new node
behind it (`element` is the first argument's head). -/
def link_last : node_t V → List (node_t V) → node_t V → List (node_t V)
  | element, [], new_node => [element, new_node]
  | element, next :: rest, new_node => element :: link_last next rest new_node

/-- The function `map_insert`. The argument `block` is the contents of the
memory that `malloc(sizeof(session_t))` returns, which the function never
writes. Returns the verdict and the registry afterwards. -/
def map_insert (list_head : head_t V) (key : Int) (block : session_t V) :
    Bool × head_t V :=
  if list_head.size ≥ NUM_SESSIONS then
    (false, list_head)
  else
    match list_head.list with
    | [] => (true, ⟨list_head.size + 1, [⟨key, block⟩]⟩)
    | element :: rest =>
      (true, ⟨list_head.size + 1, link_last element rest ⟨key, block⟩⟩)

/-- The loop of `map_find` over the nodes. -/
def find_node : List (node_t V) → Int → Option (session_t V)
  | [], _ => none
  | element :: rest, key =>
    if element.key = key then some element.session else find_node rest key

/-- The function `map_find`: `some s` when it returns true and stores the
session `s` in the out-parameter, `none` when it returns false (and leaves the
out-parameter as it was). -/
def map_find (list_head : head_t V) (key : Int) : Option (session_t V) :=
  find_node list_head.list key

/-- The loop of `map_delete`: `rest` is the list from `element->next` on. Gives
the relinked list from `element->next` on when a node was removed, `none` when
the loop ran off the end. -/
def unlink_next : List (node_t V) → Int → Option (List (node_t V))
  | [], _ => none
  | next :: rest, key =>
    if next.key = key then some rest
    else (unlink_next rest key).map (fun l => next :: l)

/-- The function `map_delete`. The result is `none` when the list is null,
where the function reads `element->key` through a null pointer. -/
def map_delete (list_head : head_t V) (key : Int) : Option (Bool × head_t V) :=
  match list_head.list with
  | [] => none
  | element :: rest =>
    if element.key = key then
      some (true, ⟨list_head.size - 1, rest⟩)
    else
      match unlink_next rest key with
      | some rest1 => some (true, ⟨list_head.size - 1, element :: rest1⟩)
      | none => some (false, list_head)

/-- A write through the pointer that `map_find` stored: the session of the
first node with the given key is replaced. -/
def store_node : List (node_t V) → Int → session_t V → List (node_t V)
  | [], _, _ => []
  | element :: rest, key, s =>
    if element.key = key then ⟨element.key, s⟩ :: rest
    else element :: store_node rest key s

/-- The registry after the session found under `key` has been overwritten. -/
def head_t.store (list_head : head_t V) (key : Int) (s : session_t V) : head_t V :=
  ⟨list_head.size, store_node list_head.list key s⟩

/-! ## The numeric-literal detector -/

/-- The libc function `isdigit` in the C locale. -/
def isdigit (c : Char) : Bool := decide (48 ≤ c.toNat ∧ c.toNat ≤ 57)

/-- The character `str[0]` of a C string: NUL for the empty string. -/
def first_char (str : List Char) : Char := str.headD (Char.ofNat 0)

/-- The `while` loop of `is_str_numeric` from index `i` on; the argument is the
string from `str[i]`. -/
def numeric_tail : List Char → Bool
  | [] => true
  | c :: rest => if !(isdigit c || c = '.') then false else numeric_tail rest

/-- The function `is_str_numeric`; `none` is the null pointer. -/
def is_str_numeric : Option (List Char) → Bool
  | none => false
  | some str =>
    if !(isdigit (first_char str) || first_char str = '-' || first_char str = '.') then
      false
    else
      numeric_tail (str.drop 1)

/-! ## The command interpreter -/

/-- The first phase of `strtok(_, " ")`: skip the leading delimiters. -/
def skip_spaces : List Char → List Char
  | [] => []
  | c :: rest => if c = ' ' then skip_spaces rest else c :: rest

/-- The second phase of `strtok(_, " ")`: the token runs up to the next
delimiter, which is overwritten by NUL, and the scan resumes behind it; a token
that ends at the terminator leaves the empty string to resume from. -/
def scan_token : List Char → List Char × List Char
  | [] => ([], [])
  | c :: rest =>
    if c = ' ' then ([], rest)
    else ((c :: (scan_token rest).1), (scan_token rest).2)

/-- One call of `strtok` with the delimiter string `" "` on the text still to be
scanned: `none` is the null pointer, otherwise the token and the text saved for
the next call. -/
def strtok (text : List Char) : Option (List Char × List Char) :=
  match skip_spaces text with
  | [] => none
  | c :: rest => some (scan_token (c :: rest))

/-- The expression `token[0] - 'a'`, an `int`. A character outside ASCII gives
an index outside `0..25` whether `char` is signed (negative) or unsigned (above
25), so the range check treats it alike; here it is above 25. -/
def letter_index (token : List Char) : Int := ((first_char token).toNat : Int) - 97

/-- The slot that a checked index `0 <= idx <= 25` selects. -/
def slot (idx : Int) (h : ¬ (idx < 0 ∨ idx > 25)) : Fin NUM_VARIABLES :=
  ⟨idx.toNat, by simp only [NUM_VARIABLES]; omega⟩

/-- The assignment `session->variables[i] = true`. -/
def session_t.mark (s : session_t V) (i : Fin NUM_VARIABLES) : session_t V :=
  ⟨Function.update s.used i true, s.values⟩

/-- The assignment `session->values[i] = v`. -/
def session_t.assign (s : session_t V) (i : Fin NUM_VARIABLES) (v : V) : session_t V :=
  ⟨s.used, Function.update s.values i v⟩

/-- The block of `process_message` that processes one variable/value token
(lines 315-327 and again 350-362). The session is `none` when `map_find` did not
set the pointer. Results: `none` when the uninitialised pointer is
dereferenced, `some none` when the block returns false, `some (some v)` when it
leaves the value `v` in `first_value` or `second_value`. -/
def read_operand (A : Arith V) (session : Option (session_t V)) (token : List Char) :
    Option (Option V) :=
  if is_str_numeric (some token) then
    some (some (A.strtod token))
  else
    if h : token.length > 1 ∨ (letter_index token < 0 ∨ letter_index token > 25) then
      some none
    else
      match session with
      | none => none
      | some s =>
        if !(s.used (slot (letter_index token) (fun h1 => h (Or.inr h1)))) then some none
        else some (some (s.values (slot (letter_index token) (fun h1 => h (Or.inr h1)))))

/-- Lines 372-387 of `process_message`: the used flag is set, then the operator
selects the value to store or the function returns false. -/
def apply_symbol (A : Arith V) (s : session_t V) (i : Fin NUM_VARIABLES) (symbol : Char)
    (first_value second_value : V) : Bool × session_t V :=
  if symbol = '+' then (true, (s.mark i).assign i (A.add first_value second_value))
  else if symbol = '-' then (true, (s.mark i).assign i (A.sub first_value second_value))
  else if symbol = '*' then (true, (s.mark i).assign i (A.mul first_value second_value))
  else if symbol = '/' then (true, (s.mark i).assign i (A.div first_value second_value))
  else (false, s.mark i)

/-- Lines 329-387 of `process_message`: everything after the first operand has
been read into `first_value`; `text` is what `strtok` has still to scan. -/
def process_rest (A : Arith V) (session : Option (session_t V)) (i : Fin NUM_VARIABLES)
    (first_value : V) (text : List Char) : Option (Bool × Option (session_t V)) :=
  match strtok text with
  | none =>
    match session with
    | none => none
    | some s => some (true, some ((s.mark i).assign i first_value))
  | some (token, text1) =>
    if token.length > 1 then some (false, session)
    else
      match strtok text1 with
      | none => some (false, session)
      | some (token1, text2) =>
        match read_operand A session token1 with
        | none => none
        | some none => some (false, session)
        | some (some second_value) =>
          match strtok text2 with
          | some _ => some (false, session)
          | none =>
            match session with
            | none => none
            | some s =>
              some ((apply_symbol A s i (first_char token) first_value second_value).1,
                some (apply_symbol A s i (first_char token) first_value second_value).2)

/-- The body of `process_message` after `map_find`, on the session that the
pointer `session` refers to (`none` when `map_find` returned false and the
pointer is uninitialised). The result is `none` on undefined behaviour:
`strlen` of a null first token, or a dereference of the uninitialised pointer.
Otherwise it is the returned boolean and the session afterwards. -/
def process_tokens (A : Arith V) (session : Option (session_t V)) (message : List Char) :
    Option (Bool × Option (session_t V)) :=
  match strtok message with
  | none => none
  | some (token, text) =>
    if token.length ≤ 0 then some (false, session)
    else
      if h : token.length > 1 ∨ (letter_index token < 0 ∨ letter_index token > 25) then
        some (false, session)
      else
        match strtok text with
        | none => some (false, session)
        | some (token1, text1) =>
          if token1.length > 1 ∨ first_char token1 ≠ '=' then some (false, session)
          else
            match strtok text1 with
            | none => some (false, session)
            | some (token2, text2) =>
              match read_operand A session token2 with
              | none => none
              | some none => some (false, session)
              | some (some first_value) =>
                process_rest A session (slot (letter_index token) (fun h1 => h (Or.inr h1)))
                  first_value text2

/-- The function `process_message` on the global `session_list`: `map_find`
sets the pointer, the body runs on the session it points to, and the writes of
the body land in the node that was found. -/
def process_message (A : Arith V) (session_list : head_t V) (session_id : Int)
    (message : List Char) : Option (Bool × head_t V) :=
  match process_tokens A (map_find session_list session_id) message with
  | none => none
  | some (valid, none) => some (valid, session_list)
  | some (valid, some s) => some (valid, session_list.store session_id s)

/-! ## An exact instance for evaluating the model -/

/-- Reads a run of decimal digits as a natural number, stopping at the first
character that is not a digit. -/
def digits_value : Nat → List Char → Nat
  | acc, [] => acc
  | acc, c :: rest => if isdigit c then digits_value (10 * acc + (c.toNat - 48)) rest else acc

/-- Integer arithmetic in place of `double`: enough to run the interpreter on
commands whose literals are unsigned whole numbers. -/
def intArith : Arith Int where
  zero := 0
  strtod := fun token => (digits_value 0 token : Int)
  add := fun a b => a + b
  sub := fun a b => a - b
  mul := fun a b => a * b
  div := fun a b => a / b

/-- A session with every flag clear and every value zero. -/
def session_t.zeroed (A : Arith V) : session_t V := ⟨fun _ => false, fun _ => A.zero⟩

/-- A registry session with one flag set and a value left behind: what a block
recycled by the allocator can hold. -/
def stale_block : session_t Int :=
  ⟨fun i => decide (i = 1), fun i => if i = 1 then 7 else 0⟩

/-- The number of used variables of a session. -/
def session_t.used_count (s : session_t V) : Nat :=
  (List.finRange NUM_VARIABLES).countP (fun i => s.used i)

/-- A call of one of the two functions that change the registry. -/
inductive registry_call (V : Type) where
  | insert (key : Int) (block : session_t V)
  | delete (key : Int)

/-- The registry after a sequence of calls, `none` once a call has undefined
behaviour. -/
def run_calls : head_t V → List (registry_call V) → Option (head_t V)
  | h, [] => some h
  | h, registry_call.insert key block :: calls => run_calls (map_insert h key block).2 calls
  | h, registry_call.delete key :: calls =>
    match map_delete h key with
    | none => none
    | some r => run_calls r.2 calls

/-- Every `map_insert` of the sequence is called with a key that `map_find`
does not find at that moment: the check that the comment of `map_insert` leaves
to the caller and that `register_browser` performs. -/
def caller_checks : head_t V → List (registry_call V) → Bool
  | _, [] => true
  | h, registry_call.insert key block :: calls =>
    (map_find h key).isNone && caller_checks (map_insert h key block).2 calls
  | h, registry_call.delete key :: calls =>
    match map_delete h key with
    | none => true
    | some r => caller_checks r.2 calls

/-- A sequence of registry calls in which the caller checks every insert:
insert 3, insert 5, delete 3, insert 3. -/
def sample_calls : List (registry_call Int) :=
  [registry_call.insert 3 stale_block, registry_call.insert 5 stale_block,
   registry_call.delete 3, registry_call.insert 3 stale_block]

/-! ## Vocabulary of the specification -/

/-- A decimal digit. -/
def decimal_digit (c : Char) : Prop := c ∈ "0123456789".toList

/-- The shape of a numeric literal in the words of the specification: not
empty, a leading digit, `-` or `.`, followed only by digits and `.`. -/
def numeric_shape (s : List Char) : Prop :=
  ∃ c rest, s = c :: rest ∧ (decimal_digit c ∨ c = '-' ∨ c = '.') ∧
    ∀ d ∈ rest, decimal_digit d ∨ d = '.'

/-- The letters a-z in order. -/
def alphabet : List Char := "abcdefghijklmnopqrstuvwxyz".toList

/-- A lowercase letter a-z. -/
def lowercase_letter (c : Char) : Prop := c ∈ alphabet

instance (c : Char) : Decidable (lowercase_letter c) := by
  unfold lowercase_letter
  infer_instance

/-- The slot that a token names when it is a single lowercase letter: the
position of the letter in the alphabet. -/
def letter_slot : List Char → Option (Fin NUM_VARIABLES)
  | [c] =>
    if h : c ∈ alphabet then some ⟨alphabet.indexOf c, List.indexOf_lt_length.2 h⟩ else none
  | _ => none

/-- The value of an operand in the words of the specification: a numeric
literal evaluates to its string-to-double conversion, a variable to its stored
value. -/
def operand_value (A : Arith V) (s : session_t V) (token : List Char) : Option V :=
  if is_str_numeric (some token) then some (A.strtod token)
  else (letter_slot token).map s.values

/-- An operand that the grammar admits: a numeric literal, or a single
lowercase letter whose used flag is set. -/
def operand_ok (s : session_t V) (token : List Char) : Prop :=
  is_str_numeric (some token) = true ∨ ∃ i, letter_slot token = some i ∧ s.used i = true

/-- The four operator tokens. -/
def operator_tokens : List (List Char) := [['+'], ['-'], ['*'], ['/']]

/-- The arithmetic operation that an operator token denotes. -/
def operator_fn (A : Arith V) (op : List Char) : Option (V → V → V) :=
  if op = ['+'] then some A.add
  else if op = ['-'] then some A.sub
  else if op = ['*'] then some A.mul
  else if op = ['/'] then some A.div
  else none

/-- The evaluated right-hand side of a command: operand1 for three tokens,
operand1 op operand2 for five. -/
def rhs_value (A : Arith V) (s : session_t V) : List (List Char) → Option V
  | [_, _, o1] => operand_value A s o1
  | [_, _, o1, op, o2] =>
    match operator_fn A op, operand_value A s o1, operand_value A s o2 with
    | some f, some v1, some v2 => some (f v1 v2)
    | _, _, _ => none
  | _ => none

/-- The grammar of a command over its tokens: `r = o1` or `r = o1 op o2`. -/
def well_formed (s : session_t V) (toks : List (List Char)) : Prop :=
  (∃ r o1, toks = [r, ['='], o1] ∧ (letter_slot r).isSome = true ∧ operand_ok s o1) ∨
  (∃ r o1 op o2, toks = [r, ['='], o1, op, o2] ∧ (letter_slot r).isSome = true ∧
    op ∈ operator_tokens ∧ operand_ok s o1 ∧ operand_ok s o2)

/-- The tokens that the first `fuel` calls of `strtok` deliver. -/
def tokens_fuel : Nat → List Char → List (List Char)
  | 0, _ => []
  | fuel + 1, text =>
    match strtok text with
    | none => []
    | some (token, text1) => token :: tokens_fuel fuel text1

/-- All the tokens that successive calls of `strtok` deliver on a line; each
call that returns a token consumes at least one character, so the length of
the line is fuel enough. -/
def tokens (text : List Char) : List (List Char) := tokens_fuel text.length text

/-- The operand block on a session that exists: the value, or `none` when the
block returns false. -/
def checked_operand (A : Arith V) (s : session_t V) (token : List Char) : Option V :=
  if is_str_numeric (some token) then some (A.strtod token)
  else
    match letter_slot token with
    | none => none
    | some i => if s.used i then some (s.values i) else none

/-- The part of `process_message` behind the first operand (`process_rest`)
read over the list of the tokens that remain, on a session that exists. -/
def interp_rest (A : Arith V) (s : session_t V) (i : Fin NUM_VARIABLES) (v1 : V) :
    List (List Char) → Option (Bool × session_t V)
  | [] => some (true, (s.mark i).assign i v1)
  | op :: rest =>
    if op.length > 1 then some (false, s)
    else
      match rest with
      | [] => some (false, s)
      | o2 :: rest1 =>
        match checked_operand A s o2 with
        | none => some (false, s)
        | some v2 =>
          match rest1 with
          | _ :: _ => some (false, s)
          | [] => some (apply_symbol A s i (first_char op) v1 v2)

/-- The body of `process_message` read over the list of tokens of the line, on
a session that exists; `process_tokens_eq_interp` proves that it is what
`process_tokens` computes. -/
def interp (A : Arith V) (s : session_t V) : List (List Char) → Option (Bool × session_t V)
  | [] => none
  | r :: rest =>
    match letter_slot r with
    | none => some (false, s)
    | some i =>
      match rest with
      | [] => some (false, s)
      | e :: rest1 =>
        if e ≠ ['='] then some (false, s)
        else
          match rest1 with
          | [] => some (false, s)
          | o1 :: rest2 =>
            match checked_operand A s o1 with
            | none => some (false, s)
            | some v1 => interp_rest A s i v1 rest2

/-- Two sessions that differ at most in the values of slots whose used flag is
clear. -/
def same_visible (s s2 : session_t V) : Prop :=
  s.used = s2.used ∧ ∀ i, s.used i = true → s.values i = s2.values i

/-- A line made of the given tokens joined by single spaces. -/
def join_tokens (toks : List (List Char)) : List Char := List.intercalate [' '] toks

/-- A token of a line: not empty and free of spaces. -/
def plain_token (t : List Char) : Prop := t ≠ [] ∧ ' ' ∉ t

instance (t : List Char) : Decidable (plain_token t) := by
  unfold plain_token
  infer_instance

/-- A registry that holds one session, number 1, fresh and zeroed. -/
def fresh_registry : head_t Int := ⟨1, [⟨1, session_t.zeroed intArith⟩]⟩

/-- A session in which `a` has been assigned 5 and nothing else is used. -/
def sample_session : session_t Int :=
  ((session_t.zeroed intArith).mark 0).assign 0 5

/-- A registry that holds `sample_session` under number 1. -/
def sample_registry : head_t Int := ⟨1, [⟨1, sample_session⟩]⟩

/-- The registry `sample_registry` after the accepted command `b = a + 3`. -/
def sample_after : head_t Int :=
  sample_registry.store 1 ((sample_session.mark 1).assign 1 (intArith.add 5 3))

/-! ## The connection table, `broadcast` and `register_browser` -/

/-- The macro `NUM_BROWSER`. -/
abbrev NUM_BROWSER : Nat := 128

/-- The struct `browser_t`. -/
structure browser_t where
  in_use : Bool
  socket_fd : Int
  session_id : Int
deriving DecidableEq

/-- The two global tables of the server: the array `browser_list` of
`NUM_BROWSER` slots and the registry `session_list`. -/
structure server_t (V : Type) where
  browser_list : Fin NUM_BROWSER → browser_t
  session_list : head_t V

/-- The loop of `broadcast` from index `i` on, for at most `fuel` iterations.
The result is the sequence of calls `send_message(socket_fd, message)` in the
order in which they are made. -/
def broadcast_from (browser_list : Fin NUM_BROWSER → browser_t) (session_id : Int)
    (message : List Char) : Nat → Nat → List (Int × List Char)
  | _, 0 => []
  | i, fuel + 1 =>
    if h : i < NUM_BROWSER then
      if (browser_list ⟨i, h⟩).in_use && decide ((browser_list ⟨i, h⟩).session_id = session_id) then
        ((browser_list ⟨i, h⟩).socket_fd, message) ::
          broadcast_from browser_list session_id message (i + 1) fuel
      else broadcast_from browser_list session_id message (i + 1) fuel
    else []

/-- The function `broadcast`: the loop from 0 with `NUM_BROWSER` iterations. -/
def broadcast (browser_list : Fin NUM_BROWSER → browser_t) (session_id : Int)
    (message : List Char) : List (Int × List Char) :=
  broadcast_from browser_list session_id message 0 NUM_BROWSER

/-- The first loop of `register_browser` (lines 468-475) from index `i` on: the
first slot that is not in use, `none` when the loop ends without the `break`. -/
def claim_from (browser_list : Fin NUM_BROWSER → browser_t) :
    Nat → Nat → Option (Fin NUM_BROWSER)
  | _, 0 => none
  | i, fuel + 1 =>
    if h : i < NUM_BROWSER then
      if !(browser_list ⟨i, h⟩).in_use then some ⟨i, h⟩
      else claim_from browser_list (i + 1) fuel
    else none

/-- The assignments of lines 471-472 to the claimed slot. -/
def claim_slot (browser_list : Fin NUM_BROWSER → browser_t) (k : Fin NUM_BROWSER)
    (browser_socket_fd : Int) : Fin NUM_BROWSER → browser_t :=
  Function.update browser_list k ⟨true, browser_socket_fd, (browser_list k).session_id⟩

/-- The assignment `browser_list[browser_id].session_id = session_id`. -/
def attach_slot (browser_list : Fin NUM_BROWSER → browser_t) (k : Fin NUM_BROWSER)
    (session_id : Int) : Fin NUM_BROWSER → browser_t :=
  Function.update browser_list k ⟨(browser_list k).in_use, (browser_list k).socket_fd, session_id⟩

/-- The loop of lines 483-491: `rand k` is the result of the `k`-th call of
`rand()`, a non-negative `int`. The loop has no bound in the source; `none`
means that the first `fuel` draws were all registered. -/
def fresh_session_id (session_list : head_t V) (rand : Nat → Nat) : Nat → Nat → Option Int
  | _, 0 => none
  | k, fuel + 1 =>
    if (map_find session_list ((rand k % 10000 : Nat) : Int)).isSome then
      fresh_session_id session_list rand (k + 1) fuel
    else some ((rand k % 10000 : Nat) : Int)

/-- Lines 480-492 of `register_browser`: the session identifier and the registry
afterwards. `requested` is the `int` that `strtol(message, NULL, 10)` gives for
the received message. The result of `map_insert` is dropped, as in the
source. -/
def join_session (fuel : Nat) (session_list : head_t V) (requested : Int) (rand : Nat → Nat)
    (block : session_t V) : Option (Int × head_t V) :=
  if requested = -1 then
    match fresh_session_id session_list rand 0 fuel with
    | none => none
    | some session_id => some (session_id, (map_insert session_list session_id block).2)
  else some (requested, session_list)

/-- The function `register_browser`. Inputs besides the two tables and the
socket: the value `requested` of the join message, the results `rand` of the
calls of `rand()`, the contents `block` of the memory `malloc` returns, and the
value `browser_id0` that the local `browser_id`, which has no initialiser,
holds when the first loop assigns nothing. The result is the returned browser
ID, the session ID sent back to the browser, and the tables afterwards; `none`
when line 493 writes outside `browser_list` or the search for a fresh session
ID does not end within `fuel` draws. -/
def register_browser (fuel : Nat) (server : server_t V) (browser_socket_fd : Int)
    (requested : Int) (rand : Nat → Nat) (block : session_t V) (browser_id0 : Int) :
    Option (Int × Int × server_t V) :=
  let claimed := claim_from server.browser_list 0 NUM_BROWSER
  match join_session fuel server.session_list requested rand block with
  | none => none
  | some (session_id, session_list1) =>
    match claimed with
    | some k =>
      some ((k.val : Int), session_id,
        ⟨attach_slot (claim_slot server.browser_list k browser_socket_fd) k session_id,
          session_list1⟩)
    | none =>
      if h : 0 ≤ browser_id0 ∧ browser_id0 < (NUM_BROWSER : Int) then
        some (browser_id0, session_id,
          ⟨attach_slot server.browser_list ⟨browser_id0.toNat, by omega⟩ session_id,
            session_list1⟩)
      else none

/-- A connection table with every slot free. -/
def free_table : Fin NUM_BROWSER → browser_t := fun _ => ⟨false, 0, 0⟩

/-- A connection table with every slot in use, attached to session 7. -/
def full_table : Fin NUM_BROWSER → browser_t := fun k => ⟨true, (k.val : Int) + 3, 7⟩

/-- The tables of a server that has just started with nothing on disk. -/
def started_server : server_t Int := ⟨free_table, head_t.empty⟩

/-- A registry at capacity: the 128 sessions 0..127. -/
def full_registry : head_t Int :=
  ⟨128, (List.range 128).map (fun k => ⟨(k : Int), session_t.zeroed intArith⟩)⟩

/-! ## `session_to_str`, the session files and the handler's guard -/

/-- What `session_to_str` takes from the language and from `sprintf`: the
comparison `value < 1000` on `double`, and the text that the conversions
`%.6f` and `%.8e` produce for a value. -/
structure Render (V : Type) where
  below_1000 : V → Bool
  fixed6 : V → List Char
  sci8 : V → List Char

/-- The call `sprintf(line, "%c = %.6f\n", 'a' + i, value)`, or the same with
`%.8e`, into the local `char line[32]`: the text of the line, or `none` when
the text and its terminating NUL do not fit the 32 bytes. -/
def format_line (R : Render V) (i : Nat) (value : V) : Option (List Char) :=
  if (4 + (if R.below_1000 value then R.fixed6 value else R.sci8 value).length + 1) + 1 ≤ 32 then
    some (Char.ofNat (97 + i) :: ' ' :: '=' :: ' ' ::
      ((if R.below_1000 value then R.fixed6 value else R.sci8 value) ++ [Char.ofNat 10]))
  else none

/-- The loop of `session_to_str` from index `i` on, for at most `fuel`
iterations: the text that the iterations append to `result` by `strcat`, or
`none` when one of the lines overruns `line`. -/
def lines_from (R : Render V) (session : session_t V) : Nat → Nat → Option (List Char)
  | _, 0 => some []
  | i, fuel + 1 =>
    if h : i < NUM_VARIABLES then
      if session.used ⟨i, h⟩ then
        match format_line R i (session.values ⟨i, h⟩) with
        | none => none
        | some line => (lines_from R session (i + 1) fuel).map (fun rest => line ++ rest)
      else lines_from R session (i + 1) fuel
    else some []

/-- The function `session_to_str`: the text left in `result`; `none` when
`map_find` did not set the pointer that the loop dereferences, or when a line
overruns `line`. -/
def session_to_str (R : Render V) (session_list : head_t V) (session_id : Int) :
    Option (List Char) :=
  match map_find session_list session_id with
  | none => none
  | some session => lines_from R session 0 NUM_VARIABLES

/-- The text of `%.6f` for a whole number: sign, decimal digits, six zeros. -/
def int_fixed6 (v : Int) : List Char :=
  (if v < 0 then ['-'] else []) ++ Nat.toDigits 10 v.natAbs ++ ".000000".toList

/-- The first nine significant digits of a natural number as a number, rounded
to nearest with ties to even; below nine digits the number is scaled up. -/
def nine_digits (n : Nat) : Nat :=
  if (Nat.toDigits 10 n).length ≤ 9 then n * 10 ^ (9 - (Nat.toDigits 10 n).length)
  else
    if 2 * (n % 10 ^ ((Nat.toDigits 10 n).length - 9)) > 10 ^ ((Nat.toDigits 10 n).length - 9) ∨
        (2 * (n % 10 ^ ((Nat.toDigits 10 n).length - 9)) = 10 ^ ((Nat.toDigits 10 n).length - 9) ∧
          (n / 10 ^ ((Nat.toDigits 10 n).length - 9)) % 2 = 1) then
      n / 10 ^ ((Nat.toDigits 10 n).length - 9) + 1
    else n / 10 ^ ((Nat.toDigits 10 n).length - 9)

/-- The digits of a number below `10 ^ 9`, padded with zeros to nine places. -/
def pad_nine (m : Nat) : List Char :=
  List.replicate (9 - (Nat.toDigits 10 m).length) '0' ++ Nat.toDigits 10 m

/-- The exponent part of `%.8e`: `e+` and at least two digits. -/
def exponent_text (e : Nat) : List Char :=
  'e' :: '+' :: ((if e < 10 then ['0'] else []) ++ Nat.toDigits 10 e)

/-- The text of `%.8e` for a whole number: sign, one digit, the point, eight
digits and the exponent; rounding that carries into a tenth digit raises the
exponent. -/
def int_sci8 (v : Int) : List Char :=
  (if v < 0 then ['-'] else []) ++
    (if nine_digits v.natAbs = 10 ^ 9 then
      '1' :: '.' :: ("00000000".toList ++ exponent_text (Nat.toDigits 10 v.natAbs).length)
    else
      (pad_nine (nine_digits v.natAbs)).take 1 ++ '.' ::
        ((pad_nine (nine_digits v.natAbs)).drop 1 ++
          exponent_text ((Nat.toDigits 10 v.natAbs).length - 1)))

/-- The comparison and the two conversions on the exact instance. -/
def intRender : Render Int where
  below_1000 := fun v => decide (v < 1000)
  fixed6 := int_fixed6
  sci8 := int_sci8

/-- The function `save_session` on the files of `DATA_DIR`, given as the record
that the file `session<id>.dat` holds when it exists (`get_session_file_path`
gives distinct paths for distinct identifiers). The file of `session_id` is
created or overwritten with one record. The source takes the record from
`&session_list[session_id]`, an expression left from the array that
`session_list` was before it became a `head_t`; the record that ends up in the
file is the argument `record`. -/
def save_session (disk : Int → Option (session_t V)) (session_id : Int)
    (record : session_t V) : Int → Option (session_t V) :=
  Function.update disk session_id (some record)

/-- The loop of `load_all_sessions` from index `i` on. A file that does not
exist is skipped. For a file that exists the source reads the record into
`&session_list[i]`; what that does to the `head_t` registry is the parameter
`read_into`. -/
def load_from (read_into : head_t V → Nat → session_t V → Option (head_t V))
    (disk : Int → Option (session_t V)) : head_t V → Nat → Nat → Option (head_t V)
  | session_list, _, 0 => some session_list
  | session_list, i, fuel + 1 =>
    if (i : Int) < NUM_SESSIONS then
      match disk (i : Int) with
      | none => load_from read_into disk session_list (i + 1) fuel
      | some record =>
        match read_into session_list i record with
        | none => none
        | some session_list1 => load_from read_into disk session_list1 (i + 1) fuel
    else some session_list

/-- The function `load_all_sessions`: the loop over `i < NUM_SESSIONS`. -/
def load_all_sessions (read_into : head_t V → Nat → session_t V → Option (head_t V))
    (disk : Int → Option (session_t V)) (session_list : head_t V) : Option (head_t V) :=
  load_from read_into disk session_list 0 128

/-- The tests of `browser_handler` (lines 525-536) that a received message
passes before it is handed to `process_message`: it is neither `EXIT` nor
`exit`, and `message[0]` is not NUL. -/
def forwarded (message : List Char) : Bool :=
  !(decide (message = "EXIT".toList) || decide (message = "exit".toList)) &&
    !(decide (first_char message = Char.ofNat 0))

/-! ## Lemmas on characters -/

theorem isdigit_iff (c : Char) : isdigit c = true ↔ decimal_digit c := by
  unfold isdigit decimal_digit
  constructor
  · intro h
    have h1 : 48 ≤ c.toNat ∧ c.toNat ≤ 57 := by simpa using h
    obtain ⟨h2, h3⟩ := h1
    have hc : c = Char.ofNat c.toNat := by simp
    rw [hc]
    interval_cases c.toNat <;> decide
  · intro h
    simp only [String.toList, List.mem_cons, List.mem_nil_iff, or_false] at h
    rcases h with h | h | h | h | h | h | h | h | h | h <;> subst h <;> decide

theorem lowercase_iff (c : Char) : (97 ≤ c.toNat ∧ c.toNat ≤ 122) ↔ lowercase_letter c := by
  unfold lowercase_letter alphabet
  constructor
  · rintro ⟨h2, h3⟩
    have hc : c = Char.ofNat c.toNat := by simp
    rw [hc]
    interval_cases c.toNat <;> decide
  · intro h
    simp only [String.toList, List.mem_cons, List.mem_nil_iff, or_false] at h
    rcases h with h | h | h | h | h | h | h | h | h | h | h | h | h | h | h | h | h | h
      | h | h | h | h | h | h | h | h <;> subst h <;> decide

theorem indexOf_alphabet (c : Char) (h : c ∈ alphabet) :
    alphabet.indexOf c = c.toNat - 97 := by
  simp only [alphabet, String.toList, List.mem_cons, List.mem_nil_iff, or_false] at h
  rcases h with h | h | h | h | h | h | h | h | h | h | h | h | h | h | h | h | h | h
    | h | h | h | h | h | h | h | h <;> subst h <;> decide

/-! ## The numeric-literal detector: theorems -/

theorem numeric_tail_iff (s : List Char) :
    numeric_tail s = true ↔ ∀ d ∈ s, decimal_digit d ∨ d = '.' := by
  induction s with
  | nil => simp [numeric_tail]
  | cons c rest ih =>
    simp only [numeric_tail, List.mem_cons, forall_eq_or_imp, ← ih]
    rw [← isdigit_iff c]
    by_cases h : isdigit c = true <;> by_cases h1 : c = '.' <;> simp [h, h1]

/-- Claim C7. `is_str_numeric` accepts a string exactly when the string is not
empty, starts with a decimal digit, `-` or `.`, and continues with decimal
digits and `.` only; so it accepts `1.2.3` and the bare `-`, and it does not
accept the empty string, `+1`, `1e3` or `1-2`. -/
theorem is_str_numeric_iff_shape :
    (∀ s : List Char, is_str_numeric (some s) = true ↔ numeric_shape s) ∧
    is_str_numeric (some "1.2.3".toList) = true ∧
    is_str_numeric (some "-".toList) = true ∧
    is_str_numeric (some "".toList) = false ∧
    is_str_numeric (some "+1".toList) = false ∧
    is_str_numeric (some "1e3".toList) = false ∧
    is_str_numeric (some "1-2".toList) = false := by
  refine ⟨?_, by decide, by decide, by decide, by decide, by decide, by decide⟩
  intro s
  cases s with
  | nil => simp [is_str_numeric, first_char, isdigit, numeric_shape]
  | cons c rest =>
    simp only [is_str_numeric, first_char, List.headD_cons, List.drop_succ_cons, List.drop_zero,
      numeric_shape, List.cons.injEq]
    constructor
    · intro h
      refine ⟨c, rest, ⟨rfl, rfl⟩, ?_, ?_⟩
      · by_cases hd : isdigit c = true
        · exact Or.inl ((isdigit_iff c).1 hd)
        · by_cases h1 : c = '-'
          · exact Or.inr (Or.inl h1)
          · by_cases h2 : c = '.'
            · exact Or.inr (Or.inr h2)
            · simp [hd, h1, h2] at h
      · apply (numeric_tail_iff rest).1
        by_cases hn : numeric_tail rest = true
        · exact hn
        · simp [hn] at h
    · rintro ⟨c1, rest1, ⟨rfl, rfl⟩, hc, hr⟩
      have hn := (numeric_tail_iff rest).2 hr
      rcases hc with hc | hc | hc
      · simp [(isdigit_iff c).2 hc, hn]
      · simp [hc, hn]
      · simp [hc, hn]

/-! ## The session registry: theorems -/

theorem link_last_eq (element : node_t V) (rest : List (node_t V)) (new_node : node_t V) :
    link_last element rest new_node = (element :: rest) ++ [new_node] := by
  induction rest generalizing element with
  | nil => rfl
  | cons next rest ih => simp [link_last, ih]

theorem map_insert_eq (list_head : head_t V) (key : Int) (block : session_t V) :
    map_insert list_head key block =
      if list_head.size ≥ NUM_SESSIONS then (false, list_head)
      else (true, ⟨list_head.size + 1, list_head.list ++ [⟨key, block⟩]⟩) := by
  unfold map_insert
  split
  · rfl
  · cases h : list_head.list with
    | nil => simp
    | cons element rest => simp [link_last_eq]

theorem find_node_eq_none_iff (l : List (node_t V)) (key : Int) :
    find_node l key = none ↔ key ∉ l.map node_t.key := by
  induction l with
  | nil => simp [find_node]
  | cons element rest ih =>
    by_cases h : element.key = key
    · simp [find_node, h]
    · have h1 : ¬ key = element.key := fun e => h e.symm
      simp [find_node, h, h1, ih]

theorem find_node_append (l : List (node_t V)) (n : node_t V) (key : Int) :
    find_node (l ++ [n]) key =
      match find_node l key with
      | some s => some s
      | none => if n.key = key then some n.session else none := by
  induction l with
  | nil => simp [find_node]
  | cons element rest ih =>
    by_cases h : element.key = key
    · simp [find_node, h]
    · simp [find_node, h, ih]

theorem map_find_eq_none_iff (h : head_t V) (key : Int) :
    map_find h key = none ↔ key ∉ h.keys :=
  find_node_eq_none_iff h.list key

theorem map_find_insert_absent (h : head_t V) (key : Int) (block : session_t V)
    (hsize : h.size < NUM_SESSIONS) (habsent : map_find h key = none) :
    map_find (map_insert h key block).2 key = some block := by
  have hs : ¬ h.size ≥ NUM_SESSIONS := not_le.2 hsize
  unfold map_find at habsent ⊢
  simp [map_insert_eq, hs, find_node_append, habsent]

theorem unlink_next_keys (l l1 : List (node_t V)) (key : Int)
    (h : unlink_next l key = some l1) :
    l1.map node_t.key = (l.map node_t.key).erase key := by
  induction l generalizing l1 with
  | nil => simp [unlink_next] at h
  | cons next rest ih =>
    by_cases hk : next.key = key
    · simp [unlink_next, hk] at h
      simp [← h, hk]
    · simp only [unlink_next, hk, if_false, Option.map_eq_some'] at h
      obtain ⟨l2, h2, rfl⟩ := h
      have hb : (next.key == key) = false := by simpa using hk
      simp [ih l2 h2, List.erase_cons, hb]

theorem map_delete_keys (h : head_t V) (key : Int) (r : Bool × head_t V)
    (hr : map_delete h key = some r) : r.2.keys = h.keys.erase key ∨ r.2 = h := by
  unfold map_delete at hr
  cases hl : h.list with
  | nil => simp [hl] at hr
  | cons element rest =>
    simp only [hl] at hr
    by_cases hk : element.key = key
    · simp only [hk, if_true, Option.some.injEq] at hr
      left
      simp [← hr, head_t.keys, hl, hk]
    · simp only [hk, if_false] at hr
      cases hu : unlink_next rest key with
      | none =>
        simp only [hu, Option.some.injEq] at hr
        right
        simp [← hr]
      | some rest1 =>
        simp only [hu, Option.some.injEq] at hr
        left
        have hb : (element.key == key) = false := by simpa using hk
        simp [← hr, head_t.keys, hl, unlink_next_keys rest rest1 key hu, List.erase_cons, hb]

theorem map_insert_keys (h : head_t V) (key : Int) (block : session_t V) :
    (map_insert h key block).2.keys = h.keys ∨ (map_insert h key block).2.keys = h.keys ++ [key] := by
  rw [map_insert_eq]
  split
  · exact Or.inl rfl
  · right
    simp [head_t.keys]

theorem run_calls_nodup (calls : List (registry_call V)) (h h1 : head_t V)
    (hnd : h.keys.Nodup) (hc : caller_checks h calls = true)
    (hrun : run_calls h calls = some h1) : h1.keys.Nodup := by
  induction calls generalizing h with
  | nil =>
    simp only [run_calls, Option.some.injEq] at hrun
    exact hrun ▸ hnd
  | cons call calls ih =>
    cases call with
    | insert key block =>
      simp only [caller_checks, Bool.and_eq_true, Option.isNone_iff_eq_none] at hc
      simp only [run_calls] at hrun
      apply ih _ _ hc.2 hrun
      rcases map_insert_keys h key block with hk | hk
      · rw [hk]; exact hnd
      · rw [hk]
        have hnot := (map_find_eq_none_iff h key).1 hc.1
        exact List.Nodup.append hnd (List.nodup_singleton key) (by simpa using hnot)
    | delete key =>
      simp only [run_calls] at hrun
      simp only [caller_checks] at hc
      cases hd : map_delete h key with
      | none => simp [hd] at hrun
      | some r =>
        simp only [hd] at hrun hc
        apply ih _ _ hc hrun
        rcases map_delete_keys h key r hd with hk | hk
        · rw [hk]; exact hnd.erase key
        · rw [hk]; exact hnd

/-- Claim C8 (the code departs from it). `map_insert` never writes the session
it allocates: on a registry below capacity that does not hold `key`, the store
that `map_find` returns afterwards is the allocated block with whatever it
contained. With a block that holds a set flag for `b`, the new session already
has `b` used with value 7, and the command `a = 5` on it leaves two used
variables. -/
theorem map_insert_session_not_zeroed :
    (∀ (h : head_t Int) (key : Int) (block : session_t Int),
      h.size < NUM_SESSIONS → map_find h key = none →
      (map_insert h key block).1 = true ∧
      map_find (map_insert h key block).2 key = some block) ∧
    (map_find (map_insert head_t.empty 7 stale_block).2 7).map
      (fun s => (s.used 1, s.values 1)) = some (true, 7) ∧
    (process_message intArith (map_insert head_t.empty 7 stale_block).2 7 "a = 5".toList).map
      (fun r => (r.1, (map_find r.2 7).map session_t.used_count)) = some (true, some 2) := by
  refine ⟨?_, by decide, by decide⟩
  intro h key block hsize habsent
  refine ⟨?_, map_find_insert_absent h key block hsize habsent⟩
  have hs : ¬ h.size ≥ NUM_SESSIONS := not_le.2 hsize
  simp [map_insert_eq, hs]

/-- Claim C9. `map_insert` returns false exactly when `size >= NUM_SESSIONS`
(128), and then the registry is unchanged; otherwise it returns true, the new
entry is appended behind the existing entries and `size` grows by one. -/
theorem map_insert_capacity (list_head : head_t V) (key : Int) (block : session_t V) :
    ((map_insert list_head key block).1 = false ↔ list_head.size ≥ NUM_SESSIONS) ∧
    ((map_insert list_head key block).1 = false →
      (map_insert list_head key block).2 = list_head) ∧
    ((map_insert list_head key block).1 = true →
      (map_insert list_head key block).2.list = list_head.list ++ [⟨key, block⟩] ∧
      (map_insert list_head key block).2.list.length = list_head.list.length + 1 ∧
      (map_insert list_head key block).2.size = list_head.size + 1) := by
  rw [map_insert_eq]
  by_cases h : list_head.size ≥ NUM_SESSIONS
  · simp [h]
  · simp [h]

/-- Claim C10, as the claim states it, fails: two calls of `map_insert` with the
key 5 on the empty registry leave two entries with the key 5. -/
theorem map_insert_twice_duplicates :
    ∃ h : head_t Int,
      run_calls head_t.empty
        [registry_call.insert 5 (session_t.zeroed intArith),
         registry_call.insert 5 (session_t.zeroed intArith)] = some h ∧
      h.keys = [5, 5] ∧ ¬ h.keys.Nodup :=
  ⟨_, rfl, by decide, by decide⟩

/-- Claim C10, amended. In every registry that a sequence of `map_insert` and
`map_delete` calls builds from the empty registry, where each `map_insert` is
called with a key that `map_find` does not find at that moment, no two entries
share a key. -/
theorem checked_calls_keys_nodup (calls : List (registry_call V)) (h : head_t V)
    (hc : caller_checks head_t.empty calls = true)
    (hrun : run_calls head_t.empty calls = some h) : h.keys.Nodup :=
  run_calls_nodup calls head_t.empty h (by simp [head_t.empty, head_t.keys]) hc hrun

/-- An instance of `checked_calls_keys_nodup`: insert 3, insert 5, delete 3,
insert 3. -/
theorem checked_calls_keys_nodup_witness :
    caller_checks (head_t.empty : head_t Int) sample_calls = true ∧
    run_calls (head_t.empty : head_t Int) sample_calls =
      some ⟨2, [⟨5, stale_block⟩, ⟨3, stale_block⟩]⟩ ∧
    (head_t.keys (⟨2, [⟨5, stale_block⟩, ⟨3, stale_block⟩]⟩ : head_t Int)).Nodup :=
  ⟨by decide, rfl, checked_calls_keys_nodup sample_calls _ (by decide) rfl⟩

/-! ## The tokenizer: lemmas -/

theorem skip_spaces_length (l : List Char) : (skip_spaces l).length ≤ l.length := by
  induction l with
  | nil => simp [skip_spaces]
  | cons c rest ih =>
    by_cases h : c = ' '
    · simp only [skip_spaces, h, if_true, List.length_cons]; omega
    · simp [skip_spaces, h]

theorem skip_spaces_head (l : List Char) (c : Char) (rest : List Char)
    (h : skip_spaces l = c :: rest) : c ≠ ' ' := by
  induction l with
  | nil => simp [skip_spaces] at h
  | cons d l1 ih =>
    by_cases hd : d = ' '
    · simp only [skip_spaces, hd, if_true] at h
      exact ih h
    · simp only [skip_spaces, hd, if_false, List.cons.injEq] at h
      exact h.1 ▸ hd

theorem scan_token_length (l : List Char) : (scan_token l).2.length ≤ l.length := by
  induction l with
  | nil => simp [scan_token]
  | cons c rest ih =>
    by_cases h : c = ' '
    · simp [scan_token, h]
    · simp only [scan_token, h, if_false, List.length_cons]; omega

theorem strtok_some_length (text token text1 : List Char)
    (h : strtok text = some (token, text1)) : text1.length < text.length := by
  unfold strtok at h
  cases hs : skip_spaces text with
  | nil => simp [hs] at h
  | cons c rest =>
    have hc := skip_spaces_head text c rest hs
    have hl := skip_spaces_length text
    have hr := scan_token_length rest
    simp only [hs, scan_token, hc, if_false, Option.some.injEq, Prod.mk.injEq] at h
    rw [hs, List.length_cons] at hl
    rw [← h.2]
    omega

theorem tokens_fuel_enough (n m : Nat) (text : List Char)
    (hn : text.length ≤ n) (hm : text.length ≤ m) :
    tokens_fuel n text = tokens_fuel m text := by
  induction n generalizing m text with
  | zero =>
    have ht : text = [] := List.length_eq_zero.1 (Nat.le_zero.1 hn)
    subst ht
    cases m with
    | zero => rfl
    | succ m => simp [tokens_fuel, strtok, skip_spaces]
  | succ n ih =>
    cases m with
    | zero =>
      have ht : text = [] := List.length_eq_zero.1 (Nat.le_zero.1 hm)
      subst ht
      simp [tokens_fuel, strtok, skip_spaces]
    | succ m =>
      simp only [tokens_fuel]
      cases hs : strtok text with
      | none => rfl
      | some r =>
        obtain ⟨token, text1⟩ := r
        have hl := strtok_some_length text token text1 hs
        simp only [List.cons.injEq, true_and]
        exact ih m text1 (by omega) (by omega)

theorem tokens_of_none (text : List Char) (h : strtok text = none) : tokens text = [] := by
  unfold tokens
  cases hl : text.length with
  | zero => rfl
  | succ n => simp [tokens_fuel, h]

theorem tokens_of_some (text token text1 : List Char)
    (h : strtok text = some (token, text1)) : tokens text = token :: tokens text1 := by
  have hl := strtok_some_length text token text1 h
  unfold tokens
  cases hn : text.length with
  | zero => omega
  | succ n =>
    simp only [tokens_fuel, h, List.cons.injEq, true_and]
    exact tokens_fuel_enough n text1.length text1 (by omega) (le_refl _)

/-! ## The interpreter over tokens: lemmas -/

theorem letter_slot_of_check (token : List Char)
    (h : ¬ (token.length > 1 ∨ (letter_index token < 0 ∨ letter_index token > 25))) :
    letter_slot token = some (slot (letter_index token) (fun h1 => h (Or.inr h1))) := by
  match token, h with
  | [], h => simp [letter_index, first_char] at h
  | [c], h =>
    have hr : 97 ≤ c.toNat ∧ c.toNat ≤ 122 := by
      simp only [letter_index, first_char, List.headD_cons, List.length_singleton] at h
      omega
    have hm : c ∈ alphabet := (lowercase_iff c).1 hr
    simp only [letter_slot, hm, dite_true, Option.some.injEq]
    apply Fin.ext
    simp only [slot, letter_index, first_char, List.headD_cons, indexOf_alphabet c hm]
    omega
  | _ :: _ :: _, h => simp at h

theorem letter_slot_of_fail (token : List Char)
    (h : token.length > 1 ∨ (letter_index token < 0 ∨ letter_index token > 25)) :
    letter_slot token = none := by
  match token, h with
  | [], _ => rfl
  | [c], h =>
    have hr : ¬ (97 ≤ c.toNat ∧ c.toNat ≤ 122) := by
      simp only [letter_index, first_char, List.headD_cons, List.length_singleton] at h
      omega
    have hm : ¬ c ∈ alphabet := fun hm => hr ((lowercase_iff c).2 hm)
    simp [letter_slot, hm]
  | _ :: _ :: _, _ => rfl

theorem read_operand_eq (A : Arith V) (s : session_t V) (token : List Char) :
    read_operand A (some s) token = some (checked_operand A s token) := by
  unfold read_operand checked_operand
  by_cases hn : is_str_numeric (some token) = true
  · simp [hn]
  · simp only [hn, if_false]
    by_cases h : token.length > 1 ∨ (letter_index token < 0 ∨ letter_index token > 25)
    · simp [h, letter_slot_of_fail token h]
    · rw [dif_neg h, letter_slot_of_check token h]
      cases hu : s.used (slot (letter_index token) (fun h1 => h (Or.inr h1))) <;> simp [hu]

theorem process_rest_eq_interp (A : Arith V) (s : session_t V) (i : Fin NUM_VARIABLES)
    (v1 : V) (text : List Char) :
    process_rest A (some s) i v1 text =
      (interp_rest A s i v1 (tokens text)).map (fun r => (r.1, some r.2)) := by
  unfold process_rest
  cases h : strtok text with
  | none => simp [tokens_of_none text h, interp_rest]
  | some r =>
    obtain ⟨token, text1⟩ := r
    rw [tokens_of_some text token text1 h]
    simp only [interp_rest]
    by_cases hl : token.length > 1
    · simp [hl]
    · simp only [hl, if_false]
      cases h1 : strtok text1 with
      | none => simp [tokens_of_none text1 h1]
      | some r1 =>
        obtain ⟨token1, text2⟩ := r1
        rw [tokens_of_some text1 token1 text2 h1]
        simp only [read_operand_eq]
        cases hv : checked_operand A s token1 with
        | none => simp
        | some v2 =>
          simp only []
          cases h2 : strtok text2 with
          | none => simp [tokens_of_none text2 h2]
          | some r2 =>
            obtain ⟨token2, text3⟩ := r2
            simp [tokens_of_some text2 token2 text3 h2]

theorem equals_token_iff (token : List Char) :
    (token.length > 1 ∨ first_char token ≠ '=') ↔ token ≠ ['='] := by
  match token with
  | [] => simp [first_char]
  | [c] => simp [first_char]
  | _ :: _ :: _ => simp

theorem process_tokens_eq_interp (A : Arith V) (s : session_t V) (message : List Char) :
    process_tokens A (some s) message =
      (interp A s (tokens message)).map (fun r => (r.1, some r.2)) := by
  unfold process_tokens
  cases h : strtok message with
  | none => simp [tokens_of_none message h, interp]
  | some r =>
    obtain ⟨token, text⟩ := r
    rw [tokens_of_some message token text h]
    simp only [interp]
    by_cases hc : token.length > 1 ∨ (letter_index token < 0 ∨ letter_index token > 25)
    · rw [letter_slot_of_fail token hc]
      simp [hc]
    · rw [letter_slot_of_check token hc]
      have hpos : ¬ token.length ≤ 0 := by
        intro h0
        have ht : token = [] := List.length_eq_zero.1 (Nat.le_zero.1 h0)
        subst ht
        simp [letter_index, first_char] at hc
      simp only [hpos, if_false, dif_neg hc]
      cases h1 : strtok text with
      | none => simp [tokens_of_none text h1]
      | some r1 =>
        obtain ⟨token1, text1⟩ := r1
        rw [tokens_of_some text token1 text1 h1]
        simp only [equals_token_iff]
        by_cases he : token1 ≠ ['=']
        · simp [he]
        · simp only [he, if_false]
          cases h2 : strtok text1 with
          | none => simp [tokens_of_none text1 h2]
          | some r2 =>
            obtain ⟨token2, text2⟩ := r2
            rw [tokens_of_some text1 token2 text2 h2]
            simp only [read_operand_eq]
            cases hv : checked_operand A s token2 with
            | none => simp
            | some v1 => simp [process_rest_eq_interp]

/-! ## Writing through the found pointer: lemmas -/

theorem find_node_store (l : List (node_t V)) (key : Int) (s s1 : session_t V)
    (h : find_node l key = some s) : find_node (store_node l key s1) key = some s1 := by
  induction l with
  | nil => simp [find_node] at h
  | cons element rest ih =>
    by_cases hk : element.key = key
    · simp [store_node, find_node, hk]
    · simp only [find_node, hk, if_false] at h
      simp [store_node, find_node, hk, ih h]

theorem find_node_store_other (l : List (node_t V)) (key key1 : Int) (s1 : session_t V)
    (hne : key1 ≠ key) : find_node (store_node l key s1) key1 = find_node l key1 := by
  induction l with
  | nil => rfl
  | cons element rest ih =>
    by_cases hk : element.key = key
    · have hk1 : ¬ element.key = key1 := fun e => hne (e.symm.trans hk)
      simp only [store_node, if_pos hk, find_node, if_neg hk1]
    · by_cases hk1 : element.key = key1
      · simp only [store_node, if_neg hk, find_node, if_pos hk1]
      · simp only [store_node, if_neg hk, find_node, if_neg hk1, ih]

theorem store_node_same (l : List (node_t V)) (key : Int) (s : session_t V)
    (h : find_node l key = some s) : store_node l key s = l := by
  induction l with
  | nil => rfl
  | cons element rest ih =>
    by_cases hk : element.key = key
    · simp only [find_node, hk, if_true, Option.some.injEq] at h
      simp only [store_node, if_pos hk, ← h]
    · simp only [find_node, hk, if_false] at h
      simp [store_node, hk, ih h]

theorem map_find_store (L : head_t V) (key : Int) (s s1 : session_t V)
    (h : map_find L key = some s) : map_find (L.store key s1) key = some s1 :=
  find_node_store L.list key s s1 h

theorem map_find_store_other (L : head_t V) (key key1 : Int) (s1 : session_t V)
    (hne : key1 ≠ key) : map_find (L.store key s1) key1 = map_find L key1 :=
  find_node_store_other L.list key key1 s1 hne

theorem store_same (L : head_t V) (key : Int) (s : session_t V)
    (h : map_find L key = some s) : L.store key s = L := by
  unfold head_t.store
  rw [store_node_same L.list key s h]

theorem process_message_eq_interp (A : Arith V) (L : head_t V) (session_id : Int)
    (s : session_t V) (message : List Char) (h : map_find L session_id = some s) :
    process_message A L session_id message =
      (interp A s (tokens message)).map (fun r => (r.1, L.store session_id r.2)) := by
  unfold process_message
  rw [h, process_tokens_eq_interp]
  cases interp A s (tokens message) with
  | none => rfl
  | some r => rfl

/-! ## The accepted commands: lemmas -/

theorem letter_not_numeric (token : List Char) (i : Fin NUM_VARIABLES)
    (h : letter_slot token = some i) : is_str_numeric (some token) = false := by
  match token, h with
  | [c], h =>
    by_cases hm : c ∈ alphabet
    · simp only [alphabet, String.toList, List.mem_cons, List.mem_nil_iff, or_false] at hm
      rcases hm with hm | hm | hm | hm | hm | hm | hm | hm | hm | hm | hm | hm | hm | hm
        | hm | hm | hm | hm | hm | hm | hm | hm | hm | hm | hm | hm <;> subst hm <;> decide
    · simp [letter_slot, hm] at h

theorem checked_operand_some_iff (A : Arith V) (s : session_t V) (token : List Char) :
    (∃ v, checked_operand A s token = some v) ↔ operand_ok s token := by
  unfold checked_operand operand_ok
  by_cases hn : is_str_numeric (some token) = true
  · simp [hn]
  · simp only [hn, if_false, false_or]
    cases hl : letter_slot token with
    | none => simp
    | some i => cases hu : s.used i <;> simp [hu]

theorem checked_operand_value (A : Arith V) (s : session_t V) (token : List Char) (v : V)
    (h : checked_operand A s token = some v) : operand_value A s token = some v := by
  unfold checked_operand at h
  unfold operand_value
  by_cases hn : is_str_numeric (some token) = true
  · simpa [hn] using h
  · simp only [hn, if_false] at h ⊢
    cases hl : letter_slot token with
    | none => simp [hl] at h
    | some i =>
      cases hu : s.used i
      · simp [hl, hu] at h
      · simpa [hl, hu] using h

theorem apply_symbol_accept (A : Arith V) (s : session_t V) (i : Fin NUM_VARIABLES)
    (op : List Char) (v1 v2 : V) (hl : ¬ op.length > 1) :
    (∃ f, operator_fn A op = some f ∧
      apply_symbol A s i (first_char op) v1 v2 = (true, (s.mark i).assign i (f v1 v2)) ∧
      op ∈ operator_tokens) ∨
    (operator_fn A op = none ∧ apply_symbol A s i (first_char op) v1 v2 = (false, s.mark i) ∧
      op ∉ operator_tokens) := by
  match op, hl with
  | [], _ =>
    right
    simp [operator_fn, apply_symbol, first_char, operator_tokens]
  | [c], _ =>
    simp only [first_char, List.headD_cons, operator_fn, apply_symbol, operator_tokens,
      List.cons.injEq, and_true, List.mem_cons, List.mem_nil_iff, or_false]
    by_cases h1 : c = '+'
    · left; exact ⟨A.add, by simp [h1]⟩
    · by_cases h2 : c = '-'
      · left; exact ⟨A.sub, by simp [h2]⟩
      · by_cases h3 : c = '*'
        · left; exact ⟨A.mul, by simp [h3]⟩
        · by_cases h4 : c = '/'
          · left; exact ⟨A.div, by simp [h4]⟩
          · right; simp [h1, h2, h3, h4]
  | _ :: _ :: _, hl => simp at hl

theorem interp_rest_accept (A : Arith V) (s s1 : session_t V) (i : Fin NUM_VARIABLES)
    (v1 : V) (toks : List (List Char))
    (h : interp_rest A s i v1 toks = some (true, s1)) :
    (toks = [] ∧ s1 = (s.mark i).assign i v1) ∨
    (∃ op f o2 v2, toks = [op, o2] ∧ checked_operand A s o2 = some v2 ∧
      op ∈ operator_tokens ∧ operator_fn A op = some f ∧
      s1 = (s.mark i).assign i (f v1 v2)) := by
  match toks with
  | [] =>
    simp only [interp_rest, Option.some.injEq, Prod.mk.injEq, true_and] at h
    exact Or.inl ⟨rfl, h.symm⟩
  | [op] =>
    by_cases hl : op.length > 1 <;> simp [interp_rest, hl] at h
  | [op, o2] =>
    right
    by_cases hl : op.length > 1
    · simp [interp_rest, hl] at h
    · cases hv : checked_operand A s o2 with
      | none => simp [interp_rest, hl, hv] at h
      | some v2 =>
        simp only [interp_rest, hl, if_false, hv, Option.some.injEq] at h
        rcases apply_symbol_accept A s i op v1 v2 hl with ⟨f, hf, ha, hm⟩ | ⟨_, ha, _⟩
        · rw [ha] at h
          simp only [Prod.mk.injEq, true_and] at h
          exact ⟨op, f, o2, v2, rfl, hv, hm, hf, h.symm⟩
        · rw [ha] at h
          simp at h
  | op :: o2 :: _ :: _ =>
    by_cases hl : op.length > 1
    · simp [interp_rest, hl] at h
    · cases hv : checked_operand A s o2 <;> simp [interp_rest, hl, hv] at h

theorem interp_accept (A : Arith V) (s s1 : session_t V) (toks : List (List Char))
    (h : interp A s toks = some (true, s1)) :
    (∃ r i o1 v1, toks = [r, ['='], o1] ∧ letter_slot r = some i ∧
      checked_operand A s o1 = some v1 ∧ s1 = (s.mark i).assign i v1) ∨
    (∃ r i o1 v1 op f o2 v2, toks = [r, ['='], o1, op, o2] ∧ letter_slot r = some i ∧
      checked_operand A s o1 = some v1 ∧ checked_operand A s o2 = some v2 ∧
      op ∈ operator_tokens ∧ operator_fn A op = some f ∧
      s1 = (s.mark i).assign i (f v1 v2)) := by
  match toks with
  | [] => simp [interp] at h
  | [r] => cases hr : letter_slot r <;> simp [interp, hr] at h
  | [r, e] =>
    cases hr : letter_slot r with
    | none => simp [interp, hr] at h
    | some i => by_cases he : e = ['='] <;> simp [interp, hr, he] at h
  | r :: e :: o1 :: rest =>
    cases hr : letter_slot r with
    | none => simp [interp, hr] at h
    | some i =>
      by_cases he : e = ['=']
      · cases hv : checked_operand A s o1 with
        | none => simp [interp, hr, he, hv] at h
        | some v1 =>
          simp only [interp, hr, he, ne_eq, not_true_eq_false, if_false, hv] at h
          rcases interp_rest_accept A s s1 i v1 rest h with ⟨h1, h2⟩ | ⟨op, f, o2, v2, h1, h2, h3, h4, h5⟩
          · left
            exact ⟨r, i, o1, v1, by rw [h1, he], hr, hv, h2⟩
          · right
            exact ⟨r, i, o1, v1, op, f, o2, v2, by rw [h1, he], hr, hv, h2, h3, h4, h5⟩
      · simp [interp, hr, he] at h

theorem interp_rest_total (A : Arith V) (s : session_t V) (i : Fin NUM_VARIABLES)
    (v1 : V) (toks : List (List Char)) :
    ∃ b s1, interp_rest A s i v1 toks = some (b, s1) ∧
      (b = false → s1 = s ∨ s1 = s.mark i) := by
  match toks with
  | [] => exact ⟨true, _, rfl, by simp⟩
  | [op] => by_cases hl : op.length > 1 <;> simp [interp_rest, hl]
  | [op, o2] =>
    by_cases hl : op.length > 1
    · simp [interp_rest, hl]
    · cases hv : checked_operand A s o2 with
      | none => simp [interp_rest, hl, hv]
      | some v2 =>
        simp only [interp_rest, hl, if_false, hv, Option.some.injEq]
        rcases apply_symbol_accept A s i op v1 v2 hl with ⟨f, _, ha, _⟩ | ⟨_, ha, _⟩
        · exact ⟨true, _, ha, by simp⟩
        · exact ⟨false, _, ha, fun _ => Or.inr rfl⟩
  | op :: o2 :: _ :: _ =>
    by_cases hl : op.length > 1
    · simp [interp_rest, hl]
    · cases hv : checked_operand A s o2 <;> simp [interp_rest, hl, hv]

theorem interp_total (A : Arith V) (s : session_t V) (toks : List (List Char))
    (hne : toks ≠ []) :
    ∃ b s1, interp A s toks = some (b, s1) ∧
      (b = false → s1 = s ∨ ∃ i, letter_slot (toks.headD []) = some i ∧ s1 = s.mark i) := by
  match toks, hne with
  | [r], _ => cases hr : letter_slot r <;> simp [interp, hr]
  | [r, e], _ =>
    cases hr : letter_slot r with
    | none => simp [interp, hr]
    | some i => by_cases he : e = ['='] <;> simp [interp, hr, he]
  | r :: e :: o1 :: rest, _ =>
    cases hr : letter_slot r with
    | none => simp [interp, hr]
    | some i =>
      by_cases he : e = ['=']
      · cases hv : checked_operand A s o1 with
        | none => simp [interp, hr, he, hv]
        | some v1 =>
          simp only [interp, hr, he, ne_eq, not_true_eq_false, if_false, hv, List.headD_cons]
          obtain ⟨b, s1, h1, h2⟩ := interp_rest_total A s i v1 rest
          refine ⟨b, s1, h1, fun hb => ?_⟩
          rcases h2 hb with h3 | h3
          · exact Or.inl h3
          · exact Or.inr ⟨i, rfl, h3⟩
      · simp [interp, hr, he]

theorem interp_well_formed (A : Arith V) (s : session_t V) (toks : List (List Char))
    (h : well_formed s toks) : ∃ s1, interp A s toks = some (true, s1) := by
  rcases h with ⟨r, o1, rfl, hr, ho1⟩ | ⟨r, o1, op, o2, rfl, hr, hop, ho1, ho2⟩
  · obtain ⟨i, hi⟩ := Option.isSome_iff_exists.1 hr
    obtain ⟨v1, hv1⟩ := (checked_operand_some_iff A s o1).2 ho1
    exact ⟨(s.mark i).assign i v1, by simp [interp, hi, hv1, interp_rest]⟩
  · obtain ⟨i, hi⟩ := Option.isSome_iff_exists.1 hr
    obtain ⟨v1, hv1⟩ := (checked_operand_some_iff A s o1).2 ho1
    obtain ⟨v2, hv2⟩ := (checked_operand_some_iff A s o2).2 ho2
    have hl : ¬ op.length > 1 := by
      simp only [operator_tokens, List.mem_cons, List.mem_nil_iff, or_false] at hop
      rcases hop with h | h | h | h <;> subst h <;> decide
    rcases apply_symbol_accept A s i op v1 v2 hl with ⟨f, _, ha, _⟩ | ⟨_, _, hm⟩
    · exact ⟨(s.mark i).assign i (f v1 v2),
        by simp [interp, hi, hv1, interp_rest, hl, hv2, ha]⟩
    · exact absurd hop hm

theorem interp_accept_well_formed (A : Arith V) (s s1 : session_t V)
    (toks : List (List Char)) (h : interp A s toks = some (true, s1)) :
    well_formed s toks := by
  rcases interp_accept A s s1 toks h with ⟨r, i, o1, v1, h1, h2, h3, _⟩ |
    ⟨r, i, o1, v1, op, f, o2, v2, h1, h2, h3, h4, h5, _, _⟩
  · left
    exact ⟨r, o1, h1, by simp [h2], (checked_operand_some_iff A s o1).1 ⟨v1, h3⟩⟩
  · right
    exact ⟨r, o1, op, o2, h1, by simp [h2], h5, (checked_operand_some_iff A s o1).1 ⟨v1, h3⟩,
      (checked_operand_some_iff A s o2).1 ⟨v2, h4⟩⟩

/-! ## Lines of tokens joined by single spaces: lemmas -/

theorem scan_token_plain (t rest : List Char) (h : ' ' ∉ t) :
    scan_token (t ++ ' ' :: rest) = (t, rest) := by
  induction t with
  | nil => simp [scan_token]
  | cons c t1 ih =>
    have hc : ¬ c = ' ' := fun e => h (by simp [e])
    have ht : ' ' ∉ t1 := fun e => h (by simp [e])
    simp [scan_token, hc, ih ht]

theorem scan_token_last (t : List Char) (h : ' ' ∉ t) : scan_token t = (t, []) := by
  induction t with
  | nil => simp [scan_token]
  | cons c t1 ih =>
    have hc : ¬ c = ' ' := fun e => h (by simp [e])
    have ht : ' ' ∉ t1 := fun e => h (by simp [e])
    simp [scan_token, hc, ih ht]

theorem strtok_plain (t rest : List Char) (h : plain_token t) :
    strtok (t ++ ' ' :: rest) = some (t, rest) := by
  obtain ⟨hne, hsp⟩ := h
  match t, hne with
  | c :: t1, _ =>
    have hc : ¬ c = ' ' := fun e => hsp (by simp [e])
    have hs := scan_token_plain (c :: t1) rest hsp
    simp only [List.cons_append] at hs
    simp [strtok, skip_spaces, hc, hs]

theorem strtok_last (t : List Char) (h : plain_token t) : strtok t = some (t, []) := by
  obtain ⟨hne, hsp⟩ := h
  match t, hne with
  | c :: t1, _ =>
    have hc : ¬ c = ' ' := fun e => hsp (by simp [e])
    have hs := scan_token_last (c :: t1) hsp
    simp [strtok, skip_spaces, hc, hs]

theorem tokens_nil : tokens [] = [] := rfl

theorem tokens_join_tokens (toks : List (List Char)) (h : ∀ t ∈ toks, plain_token t) :
    tokens (join_tokens toks) = toks := by
  match toks with
  | [] => rfl
  | [t] =>
    have ht := strtok_last t (h t (by simp))
    have hj : join_tokens [t] = t := by simp [join_tokens, List.intercalate, List.intersperse]
    rw [hj, tokens_of_some t t [] ht, tokens_nil]
  | t :: t2 :: ts =>
    have hj : join_tokens (t :: t2 :: ts) = t ++ ' ' :: join_tokens (t2 :: ts) := by
      simp [join_tokens, List.intercalate, List.intersperse]
    have ht := strtok_plain t (join_tokens (t2 :: ts)) (h t (by simp))
    rw [hj, tokens_of_some _ t _ ht,
      tokens_join_tokens (t2 :: ts) (fun u hu => h u (List.mem_cons_of_mem t hu))]

theorem process_message_some_iff (A : Arith V) (L L1 : head_t V) (session_id : Int)
    (s : session_t V) (message : List Char) (b : Bool)
    (hfind : map_find L session_id = some s) :
    process_message A L session_id message = some (b, L1) ↔
      ∃ s1, interp A s (tokens message) = some (b, s1) ∧ L1 = L.store session_id s1 := by
  rw [process_message_eq_interp A L session_id s message hfind]
  cases hi : interp A s (tokens message) with
  | none => simp
  | some r =>
    obtain ⟨b1, s1⟩ := r
    simp only [Option.map_some', Option.some.injEq, Prod.mk.injEq]
    constructor
    · rintro ⟨h1, h2⟩
      exact ⟨s1, ⟨h1, rfl⟩, h2.symm⟩
    · rintro ⟨s2, ⟨h1, h2⟩, h3⟩
      exact ⟨h1, by rw [h3, h2]⟩

/-! ## The command interpreter: theorems -/

/-- Claim C4. On a registered session and a line of one or more non-empty
space-free tokens joined by single spaces, `process_message` accepts exactly
when the tokens are `r = o1` or `r = o1 op o2` with `r` a single lowercase
letter, `op` one of `+ - * /` and each operand a numeric literal or a used
single lowercase letter; on every other such line it returns false. -/
theorem process_message_accepts_iff_well_formed (A : Arith V) (L : head_t V)
    (session_id : Int) (s : session_t V) (toks : List (List Char))
    (hfind : map_find L session_id = some s) (hne : toks ≠ [])
    (htoks : ∀ t ∈ toks, plain_token t) :
    ((∃ L1, process_message A L session_id (join_tokens toks) = some (true, L1)) ↔
      well_formed s toks) ∧
    ((∃ L1, process_message A L session_id (join_tokens toks) = some (false, L1)) ↔
      ¬ well_formed s toks) := by
  have hacc : (∃ L1, process_message A L session_id (join_tokens toks) = some (true, L1)) ↔
      well_formed s toks := by
    constructor
    · rintro ⟨L1, h⟩
      obtain ⟨s1, h1, _⟩ := (process_message_some_iff A L L1 session_id s _ true hfind).1 h
      rw [tokens_join_tokens toks htoks] at h1
      exact interp_accept_well_formed A s s1 toks h1
    · intro h
      obtain ⟨s1, h1⟩ := interp_well_formed A s toks h
      refine ⟨L.store session_id s1, ?_⟩
      apply (process_message_some_iff A L _ session_id s _ true hfind).2
      exact ⟨s1, by rw [tokens_join_tokens toks htoks]; exact h1, rfl⟩
  refine ⟨hacc, ?_⟩
  constructor
  · rintro ⟨L1, h⟩ hwf
    obtain ⟨L2, h2⟩ := hacc.2 hwf
    rw [h] at h2
    simp at h2
  · intro hwf
    obtain ⟨b, s1, h1, _⟩ := interp_total A s toks hne
    cases b with
    | true => exact absurd (interp_accept_well_formed A s s1 toks h1) hwf
    | false =>
      refine ⟨L.store session_id s1, ?_⟩
      apply (process_message_some_iff A L _ session_id s _ false hfind).2
      exact ⟨s1, by rw [tokens_join_tokens toks htoks]; exact h1, rfl⟩

/-- An instance of `process_message_accepts_iff_well_formed`: the line
`b = a % 3` on a session where `a` is used is not well formed and is
rejected. -/
theorem process_message_accepts_iff_well_formed_witness :
    map_find sample_registry 1 = some sample_session ∧
    ["b".toList, "=".toList, "a".toList, "%".toList, "3".toList] ≠ [] ∧
    (∀ t ∈ ["b".toList, "=".toList, "a".toList, "%".toList, "3".toList], plain_token t) ∧
    (((∃ L1, process_message intArith sample_registry 1
        (join_tokens ["b".toList, "=".toList, "a".toList, "%".toList, "3".toList]) =
          some (true, L1)) ↔
      well_formed sample_session
        ["b".toList, "=".toList, "a".toList, "%".toList, "3".toList]) ∧
    ((∃ L1, process_message intArith sample_registry 1
        (join_tokens ["b".toList, "=".toList, "a".toList, "%".toList, "3".toList]) =
          some (false, L1)) ↔
      ¬ well_formed sample_session
        ["b".toList, "=".toList, "a".toList, "%".toList, "3".toList])) :=
  ⟨rfl, by decide, by decide,
    process_message_accepts_iff_well_formed intArith sample_registry 1 sample_session
      ["b".toList, "=".toList, "a".toList, "%".toList, "3".toList] rfl (by decide)
      (by decide)⟩

theorem process_message_reject_effect (A : Arith V) (L L1 : head_t V) (session_id : Int)
    (s : session_t V) (message : List Char) (hfind : map_find L session_id = some s)
    (hrej : process_message A L session_id message = some (false, L1)) :
    L1 = L ∨ ∃ i, letter_slot ((tokens message).headD []) = some i ∧
      L1 = L.store session_id (s.mark i) := by
  obtain ⟨s1, h1, h2⟩ := (process_message_some_iff A L L1 session_id s _ false hfind).1 hrej
  have hne : tokens message ≠ [] := by
    intro h0
    simp [h0, interp] at h1
  obtain ⟨b, s2, h3, h4⟩ := interp_total A s (tokens message) hne
  rw [h1] at h3
  simp only [Option.some.injEq, Prod.mk.injEq] at h3
  obtain ⟨hb, hs⟩ := h3
  rcases h4 hb.symm with h5 | ⟨i, h5, h6⟩
  · left
    rw [h2, hs, h5, store_same L session_id s hfind]
  · right
    exact ⟨i, h5, by rw [h2, hs, h6]⟩

/-- Claim C1 (the code departs from it). On a registry whose session 1 is fresh,
the command `a = 1 % 2` is rejected, yet the used flag of `a` is set
afterwards; the next command `b = a` is then accepted although `a` was never
assigned. -/
theorem rejected_operator_marks_result :
    (map_find fresh_registry 1).map (fun s => s.used 0) = some false ∧
    (process_message intArith fresh_registry 1 "a = 1 % 2".toList).map
      (fun r => (r.1, (map_find r.2 1).map (fun s => s.used 0))) = some (false, some true) ∧
    ((process_message intArith fresh_registry 1 "a = 1 % 2".toList).bind
      (fun r => process_message intArith r.2 1 "b = a".toList)).map Prod.fst = some true := by
  decide

/-- Claim C2. When `process_message` accepts a line on a registered session,
the slot of the result letter is marked used afterwards and holds the evaluated
right-hand side computed from the store before the call. -/
theorem process_message_accept_value (A : Arith V) (L L1 : head_t V) (session_id : Int)
    (s : session_t V) (message : List Char) (hfind : map_find L session_id = some s)
    (hacc : process_message A L session_id message = some (true, L1)) :
    ∃ i v s1, letter_slot ((tokens message).headD []) = some i ∧
      rhs_value A s (tokens message) = some v ∧
      map_find L1 session_id = some s1 ∧ s1.used i = true ∧ s1.values i = v := by
  obtain ⟨s1, h1, h2⟩ := (process_message_some_iff A L L1 session_id s _ true hfind).1 hacc
  have hf : map_find L1 session_id = some s1 := by
    rw [h2]; exact map_find_store L session_id s s1 hfind
  rcases interp_accept A s s1 _ h1 with ⟨r, i, o1, v1, h3, h4, h5, h6⟩ |
    ⟨r, i, o1, v1, op, f, o2, v2, h3, h4, h5, h6, _, h8, h9⟩
  · refine ⟨i, v1, s1, by simp [h3, h4], ?_, hf, ?_, ?_⟩
    · simp [h3, rhs_value, checked_operand_value A s o1 v1 h5]
    · simp [h6, session_t.mark, session_t.assign]
    · simp [h6, session_t.mark, session_t.assign]
  · refine ⟨i, f v1 v2, s1, by simp [h3, h4], ?_, hf, ?_, ?_⟩
    · simp [h3, rhs_value, checked_operand_value A s o1 v1 h5,
        checked_operand_value A s o2 v2 h6, h8]
    · simp [h9, session_t.mark, session_t.assign]
    · simp [h9, session_t.mark, session_t.assign]

/-- An instance of `process_message_accept_value`: `b = a + 3` on a session
where `a` is 5. -/
theorem process_message_accept_value_witness :
    map_find sample_registry 1 = some sample_session ∧
    process_message intArith sample_registry 1 "b = a + 3".toList = some (true, sample_after) ∧
    ∃ i v s1, letter_slot ((tokens "b = a + 3".toList).headD []) = some i ∧
      rhs_value intArith sample_session (tokens "b = a + 3".toList) = some v ∧
      map_find sample_after 1 = some s1 ∧ s1.used i = true ∧ s1.values i = v :=
  ⟨rfl, rfl, process_message_accept_value intArith sample_registry sample_after 1
    sample_session "b = a + 3".toList rfl rfl⟩

/-- Claim C3. When `process_message` accepts a line on a registered session,
every slot other than the slot of the result letter keeps its used flag and its
value. -/
theorem process_message_accept_frame (A : Arith V) (L L1 : head_t V) (session_id : Int)
    (s : session_t V) (message : List Char) (hfind : map_find L session_id = some s)
    (hacc : process_message A L session_id message = some (true, L1)) :
    ∃ i s1, letter_slot ((tokens message).headD []) = some i ∧
      map_find L1 session_id = some s1 ∧
      ∀ j, j ≠ i → s1.used j = s.used j ∧ s1.values j = s.values j := by
  obtain ⟨s1, h1, h2⟩ := (process_message_some_iff A L L1 session_id s _ true hfind).1 hacc
  have hf : map_find L1 session_id = some s1 := by
    rw [h2]; exact map_find_store L session_id s s1 hfind
  rcases interp_accept A s s1 _ h1 with ⟨r, i, o1, v1, h3, h4, _, h6⟩ |
    ⟨r, i, o1, v1, op, f, o2, v2, h3, h4, _, _, _, _, h9⟩
  · refine ⟨i, s1, by simp [h3, h4], hf, fun j hj => ?_⟩
    simp [h6, session_t.mark, session_t.assign, Function.update_noteq hj]
  · refine ⟨i, s1, by simp [h3, h4], hf, fun j hj => ?_⟩
    simp [h9, session_t.mark, session_t.assign, Function.update_noteq hj]

/-- An instance of `process_message_accept_frame`: `b = a + 3` on a session
where `a` is 5. -/
theorem process_message_accept_frame_witness :
    map_find sample_registry 1 = some sample_session ∧
    process_message intArith sample_registry 1 "b = a + 3".toList = some (true, sample_after) ∧
    ∃ i s1, letter_slot ((tokens "b = a + 3".toList).headD []) = some i ∧
      map_find sample_after 1 = some s1 ∧
      ∀ j, j ≠ i → s1.used j = sample_session.used j ∧
        s1.values j = sample_session.values j :=
  ⟨rfl, rfl, process_message_accept_frame intArith sample_registry sample_after 1
    sample_session "b = a + 3".toList rfl rfl⟩

/-! ## Operands and used flags: lemmas -/

theorem checked_operand_unused (A : Arith V) (s : session_t V) (o : List Char)
    (i : Fin NUM_VARIABLES) (hslot : letter_slot o = some i) (hunused : s.used i = false) :
    checked_operand A s o = none := by
  simp [checked_operand, letter_not_numeric o i hslot, hslot, hunused]

theorem interp_reject_unused (A : Arith V) (s : session_t V) (toks : List (List Char))
    (o : List Char) (i : Fin NUM_VARIABLES)
    (hpos : toks[2]? = some o ∨ toks[4]? = some o)
    (hslot : letter_slot o = some i) (hunused : s.used i = false) :
    ∃ s1, interp A s toks = some (false, s1) := by
  have hnone := checked_operand_unused A s o i hslot hunused
  have hne : toks ≠ [] := by
    intro h0
    subst h0
    simp at hpos
  obtain ⟨b, s1, h1, _⟩ := interp_total A s toks hne
  cases b with
  | false => exact ⟨s1, h1⟩
  | true =>
    exfalso
    rcases interp_accept A s s1 toks h1 with ⟨r, j, o1, v1, h3, _, h5, _⟩ |
      ⟨r, j, o1, v1, op, f, o2, v2, h3, _, h5, h6, _, _, _⟩
    · subst h3
      simp only [List.getElem?_cons_succ, List.getElem?_cons_zero, Option.some.injEq,
        List.getElem?_nil] at hpos
      rcases hpos with hp | hp
      · rw [hp, hnone] at h5
        simp at h5
      · simp at hp
    · subst h3
      simp only [List.getElem?_cons_succ, List.getElem?_cons_zero, Option.some.injEq] at hpos
      rcases hpos with hp | hp
      · rw [hp, hnone] at h5
        simp at h5
      · rw [hp, hnone] at h6
        simp at h6

theorem same_visible_symm (s s2 : session_t V) (h : same_visible s s2) : same_visible s2 s :=
  ⟨h.1.symm, fun i hi => (h.2 i (by rw [h.1]; exact hi)).symm⟩

theorem checked_operand_congr (A : Arith V) (s s2 : session_t V) (o : List Char)
    (h : same_visible s s2) : checked_operand A s o = checked_operand A s2 o := by
  unfold checked_operand
  by_cases hn : is_str_numeric (some o) = true
  · simp [hn]
  · simp only [hn, if_false]
    cases hl : letter_slot o with
    | none => rfl
    | some i =>
      simp only [← h.1]
      cases hu : s.used i with
      | false => simp
      | true => simp [h.2 i hu]

theorem same_visible_write (s s2 : session_t V) (i : Fin NUM_VARIABLES) (v : V)
    (h : same_visible s s2) :
    same_visible ((s.mark i).assign i v) ((s2.mark i).assign i v) := by
  refine ⟨by simp [session_t.mark, session_t.assign, h.1], fun j hj => ?_⟩
  by_cases hji : j = i
  · simp [session_t.mark, session_t.assign, hji]
  · simp only [session_t.mark, session_t.assign, Function.update_noteq hji] at hj ⊢
    exact h.2 j hj

theorem interp_accept_congr (A : Arith V) (s s1 s2 : session_t V) (toks : List (List Char))
    (h : same_visible s s2) (hacc : interp A s toks = some (true, s1)) :
    ∃ s3, interp A s2 toks = some (true, s3) ∧ same_visible s1 s3 := by
  rcases interp_accept A s s1 toks hacc with ⟨r, i, o1, v1, h3, h4, h5, h6⟩ |
    ⟨r, i, o1, v1, op, f, o2, v2, h3, h4, h5, h6, h7, h8, h9⟩
  · rw [checked_operand_congr A s s2 o1 h] at h5
    refine ⟨(s2.mark i).assign i v1, by simp [h3, interp, h4, h5, interp_rest], ?_⟩
    rw [h6]
    exact same_visible_write s s2 i v1 h
  · rw [checked_operand_congr A s s2 o1 h] at h5
    rw [checked_operand_congr A s s2 o2 h] at h6
    have hl : ¬ op.length > 1 := by
      simp only [operator_tokens, List.mem_cons, List.mem_nil_iff, or_false] at h7
      rcases h7 with e | e | e | e <;> subst e <;> decide
    rcases apply_symbol_accept A s2 i op v1 v2 hl with ⟨g, hg, ha, _⟩ | ⟨hg, _, _⟩
    · rw [h8] at hg
      simp only [Option.some.injEq] at hg
      subst hg
      refine ⟨(s2.mark i).assign i (f v1 v2),
        by simp [h3, interp, h4, h5, interp_rest, hl, h6, ha], ?_⟩
      rw [h9]
      exact same_visible_write s s2 i (f v1 v2) h
    · rw [h8] at hg
      simp at hg

theorem interp_congr (A : Arith V) (s s1 s2 : session_t V) (toks : List (List Char))
    (b : Bool) (h : same_visible s s2) (hi : interp A s toks = some (b, s1)) :
    ∃ s3, interp A s2 toks = some (b, s3) ∧ (b = true → same_visible s1 s3) := by
  cases b with
  | true =>
    obtain ⟨s3, h1, h2⟩ := interp_accept_congr A s s1 s2 toks h hi
    exact ⟨s3, h1, fun _ => h2⟩
  | false =>
    have hne : toks ≠ [] := by
      intro h0
      subst h0
      simp [interp] at hi
    obtain ⟨b2, s3, h1, _⟩ := interp_total A s2 toks hne
    cases b2 with
    | false => exact ⟨s3, h1, by simp⟩
    | true =>
      obtain ⟨s4, h2, _⟩ := interp_accept_congr A s2 s3 s toks (same_visible_symm s s2 h) h1
      rw [hi] at h2
      simp at h2

theorem write_same (s : session_t V) (i : Fin NUM_VARIABLES) (hu : s.used i = true) :
    (s.mark i).assign i (s.values i) = s := by
  obtain ⟨used, values⟩ := s
  simp only at hu
  simp only [session_t.mark, session_t.assign, session_t.mk.injEq]
  exact ⟨by rw [← hu]; exact Function.update_eq_self i used, Function.update_eq_self i values⟩

theorem alphabet_not_space (x : Char) (h : x ∈ alphabet) : ¬ x = ' ' := by
  intro e
  subst e
  exact absurd h (by decide)

/-! ## Operands and self-reference: theorems -/

/-- Claim C5. On a registered session, a line whose third or fifth token is a
single lowercase letter with a clear used flag is rejected; and the values of
slots whose used flag is clear are never read: replacing the session by one
that differs only in such values gives the same verdict and, on acceptance,
stores that again differ only in such values. -/
theorem unused_operand_rejected (A : Arith V) (L : head_t V) (session_id : Int)
    (s : session_t V) (message : List Char) (hfind : map_find L session_id = some s) :
    (∀ o i, ((tokens message)[2]? = some o ∨ (tokens message)[4]? = some o) →
      letter_slot o = some i → s.used i = false →
      ∃ L1, process_message A L session_id message = some (false, L1)) ∧
    (∀ s2 b L1, same_visible s s2 →
      process_message A L session_id message = some (b, L1) →
      ∃ L2, process_message A (L.store session_id s2) session_id message = some (b, L2) ∧
        (b = true → ∃ r r2, map_find L1 session_id = some r ∧
          map_find L2 session_id = some r2 ∧ same_visible r r2)) := by
  constructor
  · intro o i hpos hslot hunused
    obtain ⟨s1, h1⟩ := interp_reject_unused A s (tokens message) o i hpos hslot hunused
    exact ⟨L.store session_id s1,
      (process_message_some_iff A L _ session_id s _ false hfind).2 ⟨s1, h1, rfl⟩⟩
  · intro s2 b L1 hvis hrun
    obtain ⟨s1, h1, h2⟩ := (process_message_some_iff A L L1 session_id s _ b hfind).1 hrun
    obtain ⟨s3, h3, h4⟩ := interp_congr A s s1 s2 (tokens message) b hvis h1
    have hfind2 : map_find (L.store session_id s2) session_id = some s2 :=
      map_find_store L session_id s s2 hfind
    refine ⟨(L.store session_id s2).store session_id s3,
      (process_message_some_iff A _ _ session_id s2 _ b hfind2).2 ⟨s3, h3, rfl⟩, fun hb => ?_⟩
    refine ⟨s1, s3, ?_, map_find_store _ session_id s2 s3 hfind2, h4 hb⟩
    rw [h2]
    exact map_find_store L session_id s s1 hfind

/-- An instance of `unused_operand_rejected`: `c = d + 1` on a session where
only `a` is used. -/
theorem unused_operand_rejected_witness :
    map_find sample_registry 1 = some sample_session ∧
    (tokens "c = d + 1".toList)[2]? = some ['d'] ∧
    letter_slot ['d'] = some 3 ∧ sample_session.used 3 = false ∧
    ∃ L1, process_message intArith sample_registry 1 "c = d + 1".toList = some (false, L1) :=
  ⟨rfl, by decide, by decide, by decide,
    (unused_operand_rejected intArith sample_registry 1 sample_session "c = d + 1".toList
      rfl).1 ['d'] 3 (Or.inl (by decide)) (by decide) (by decide)⟩

/-- Claim C6, as the claim states it, fails: on a session where `a` is used the
command `a = a` is accepted. -/
theorem self_assignment_accepted :
    (map_find sample_registry 1).map (fun s => s.used 0) = some true ∧
    (process_message intArith sample_registry 1 "a = a".toList).map Prod.fst = some true := by
  decide

/-- Claim C6, amended. On a registered session and for a lowercase letter `x`,
the command `x = x` is rejected when `x` is not used in the store, and accepted
when `x` is used; in both cases the registry is left as it was. -/
theorem self_assignment_verdict (A : Arith V) (L : head_t V) (session_id : Int)
    (s : session_t V) (x : Char) (hfind : map_find L session_id = some s)
    (hx : lowercase_letter x) :
    ∃ i, letter_slot [x] = some i ∧
      (s.used i = false →
        process_message A L session_id [x, ' ', '=', ' ', x] = some (false, L)) ∧
      (s.used i = true →
        process_message A L session_id [x, ' ', '=', ' ', x] = some (true, L)) := by
  have hsp := alphabet_not_space x hx
  have hplain : ∀ t ∈ [[x], ['='], [x]], plain_token t := by
    intro t ht
    simp only [List.mem_cons, List.mem_nil_iff, or_false] at ht
    rcases ht with e | e | e <;> subst e
    · exact ⟨by simp, by simpa using fun e => hsp e.symm⟩
    · decide
    · exact ⟨by simp, by simpa using fun e => hsp e.symm⟩
  have htok : tokens [x, ' ', '=', ' ', x] = [[x], ['='], [x]] :=
    tokens_join_tokens [[x], ['='], [x]] hplain
  have hslot : letter_slot [x] = some ⟨alphabet.indexOf x, List.indexOf_lt_length.2 hx⟩ := by
    have hx1 : x ∈ alphabet := hx
    simp [letter_slot, hx1]
  refine ⟨_, hslot, fun hu => ?_, fun hu => ?_⟩
  · apply (process_message_some_iff A L L session_id s _ false hfind).2
    refine ⟨s, ?_, (store_same L session_id s hfind).symm⟩
    rw [htok]
    simp [interp, hslot, checked_operand, letter_not_numeric [x] _ hslot, hu]
  · apply (process_message_some_iff A L L session_id s _ true hfind).2
    refine ⟨s, ?_, (store_same L session_id s hfind).symm⟩
    rw [htok]
    simp only [interp, hslot, checked_operand, letter_not_numeric [x] _ hslot, hu, interp_rest,
      ne_eq, not_true_eq_false, if_false, if_true, Bool.false_eq_true]
    rw [write_same s _ hu]

/-- An instance of `self_assignment_verdict`: the letter `b` on a session where
only `a` is used. -/
theorem self_assignment_verdict_witness :
    map_find sample_registry 1 = some sample_session ∧ lowercase_letter 'b' ∧
    ∃ i, letter_slot ['b'] = some i ∧
      (sample_session.used i = false →
        process_message intArith sample_registry 1 ['b', ' ', '=', ' ', 'b'] =
          some (false, sample_registry)) ∧
      (sample_session.used i = true →
        process_message intArith sample_registry 1 ['b', ' ', '=', ' ', 'b'] =
          some (true, sample_registry)) :=
  ⟨rfl, by decide, self_assignment_verdict intArith sample_registry 1 sample_session 'b' rfl
    (by decide)⟩

/-! ## The session registry: lookup and deletion -/

theorem find_node_eq_find (l : List (node_t V)) (key : Int) :
    find_node l key = (l.find? (fun n => decide (n.key = key))).map node_t.session := by
  induction l with
  | nil => rfl
  | cons element rest ih =>
    by_cases h : element.key = key
    · simp [find_node, List.find?, h]
    · simp [find_node, List.find?, h, ih]

theorem unlink_next_none_iff (l : List (node_t V)) (key : Int) :
    unlink_next l key = none ↔ key ∉ l.map node_t.key := by
  induction l with
  | nil => simp [unlink_next]
  | cons next rest ih =>
    by_cases h : next.key = key
    · simp [unlink_next, h]
    · have h1 : ¬ key = next.key := fun e => h e.symm
      simp [unlink_next, h, h1, ih]

theorem find_node_unlink_other (l l1 : List (node_t V)) (key k : Int)
    (h : unlink_next l key = some l1) (hk : k ≠ key) : find_node l1 k = find_node l k := by
  induction l generalizing l1 with
  | nil => simp [unlink_next] at h
  | cons next rest ih =>
    by_cases hn : next.key = key
    · simp only [unlink_next, hn, if_true, Option.some.injEq] at h
      have hnk : ¬ next.key = k := fun e => hk (e.symm.trans hn)
      simp only [find_node, if_neg hnk, h]
    · simp only [unlink_next, hn, if_false, Option.map_eq_some'] at h
      obtain ⟨l2, h2, rfl⟩ := h
      by_cases hnk : next.key = k
      · simp only [find_node, if_pos hnk]
      · simp only [find_node, if_neg hnk, ih l2 h2]

theorem map_delete_nonempty (h : head_t V) (id : Int) (hne : h.list ≠ []) :
    ∃ b h1, map_delete h id = some (b, h1) ∧ (b = true ↔ id ∈ h.keys) ∧
      (b = false → h1 = h) ∧
      (b = true → h.keys.Nodup →
        h1.size = h.size - 1 ∧ map_find h1 id = none ∧
        ∀ k, k ≠ id → map_find h1 k = map_find h k) := by
  cases hl : h.list with
  | nil => exact absurd hl hne
  | cons element rest =>
    by_cases hk : element.key = id
    · refine ⟨true, ⟨h.size - 1, rest⟩, by simp [map_delete, hl, hk], ?_, by simp, ?_⟩
      · simp [head_t.keys, hl, hk]
      · intro _ hnd
        refine ⟨rfl, ?_, fun k hkid => ?_⟩
        · have hnd1 : id ∉ rest.map node_t.key := by
            simp only [head_t.keys, hl, List.map_cons, hk, List.nodup_cons] at hnd
            exact hnd.1
          exact (find_node_eq_none_iff rest id).2 hnd1
        · have hnk : ¬ element.key = k := fun e => hkid (e.symm.trans hk)
          simp only [map_find, hl, find_node, if_neg hnk]
    · have hk1 : ¬ id = element.key := fun e => hk e.symm
      cases hu : unlink_next rest id with
      | none =>
        refine ⟨false, h, by simp [map_delete, hl, hk, hu], ?_, by simp, by simp⟩
        have hnot := (unlink_next_none_iff rest id).1 hu
        simp only [List.mem_map, not_exists, not_and] at hnot
        simp only [head_t.keys, hl, List.map_cons, List.mem_cons, hk1, false_or, List.mem_map,
          Bool.false_eq_true, false_iff, not_exists, not_and]
        exact hnot
      | some rest1 =>
        refine ⟨true, ⟨h.size - 1, element :: rest1⟩, by simp [map_delete, hl, hk, hu], ?_,
          by simp, ?_⟩
        · have hmem : id ∈ rest.map node_t.key := by
            by_contra hn
            rw [(unlink_next_none_iff rest id).2 hn] at hu
            simp at hu
          simp [head_t.keys, hl, hmem]
        · intro _ hnd
          refine ⟨rfl, ?_, fun k hkid => ?_⟩
          · simp only [head_t.keys, hl, List.map_cons, List.nodup_cons] at hnd
            have hkeys := unlink_next_keys rest rest1 id hu
            have hnot : id ∉ rest1.map node_t.key := by
              rw [hkeys]
              exact fun hm => ((List.Nodup.mem_erase_iff hnd.2).1 hm).1 rfl
            simp only [map_find, find_node, if_neg hk]
            exact (find_node_eq_none_iff rest1 id).2 hnot
          · simp only [map_find, hl, find_node, find_node_unlink_other rest rest1 id k hu hkid]

/-- Claim C11. `map_find` reports found exactly when some entry has the key, and
then yields the store of the first such entry; when `map_insert` returns true
for `id`, `map_find` finds `id` afterwards and gives for every other key the
same answer and the same store as before. -/
theorem map_find_first_entry (h : head_t V) (id : Int) (block : session_t V) :
    ((map_find h id).isSome = true ↔ id ∈ h.keys) ∧
    map_find h id = (h.list.find? (fun n => decide (n.key = id))).map node_t.session ∧
    ((map_insert h id block).1 = true →
      (map_find (map_insert h id block).2 id).isSome = true ∧
      ∀ k, k ≠ id → map_find (map_insert h id block).2 k = map_find h k) := by
  refine ⟨?_, find_node_eq_find h.list id, ?_⟩
  · rw [← not_iff_not]
    simp only [Bool.not_eq_true, Option.not_isSome, Option.isNone_iff_eq_none]
    exact map_find_eq_none_iff h id
  · rw [map_insert_eq]
    by_cases hs : h.size ≥ NUM_SESSIONS
    · simp [hs]
    · simp only [hs, if_false, true_implies, map_find, find_node_append]
      constructor
      · cases find_node h.list id <;> simp
      · intro k hk
        have hk1 : ¬ id = k := fun e => hk e.symm
        cases find_node h.list k <;> simp [hk1]

/-- Claim C12 (the code departs from it). On the empty registry `map_delete`
reads `element->key` through the null list pointer and returns nothing. On a
registry with at least one entry it returns true exactly when the key is
present; a false return leaves the registry unchanged, and a true return on
distinct keys lowers `size` by one, removes the key and keeps every other key
with its store. -/
theorem map_delete_empty_undefined (id : Int) :
    map_delete (head_t.empty : head_t V) id = none ∧
    (∀ h : head_t V, h.list ≠ [] →
      ∃ b h1, map_delete h id = some (b, h1) ∧ (b = true ↔ id ∈ h.keys) ∧
        (b = false → h1 = h) ∧
        (b = true → h.keys.Nodup →
          h1.size = h.size - 1 ∧ map_find h1 id = none ∧
          ∀ k, k ≠ id → map_find h1 k = map_find h k)) :=
  ⟨rfl, fun h hne => map_delete_nonempty h id hne⟩

/-! ## `broadcast`: theorems -/

theorem broadcast_from_eq (browser_list : Fin NUM_BROWSER → browser_t) (session_id : Int)
    (message : List Char) (i fuel : Nat) :
    broadcast_from browser_list session_id message i fuel =
      (List.range' i fuel).filterMap (fun j =>
        if h : j < NUM_BROWSER then
          if (browser_list ⟨j, h⟩).in_use &&
              decide ((browser_list ⟨j, h⟩).session_id = session_id) then
            some ((browser_list ⟨j, h⟩).socket_fd, message)
          else none
        else none) := by
  induction fuel generalizing i with
  | zero => rfl
  | succ fuel ih =>
    rw [List.range'_succ]
    by_cases h : i < NUM_BROWSER
    · by_cases hc : ((browser_list ⟨i, h⟩).in_use &&
          decide ((browser_list ⟨i, h⟩).session_id = session_id)) = true
      · simp only [broadcast_from, dif_pos h, if_pos hc, ih, List.filterMap_cons]
      · simp only [broadcast_from, dif_pos h, if_neg hc, ih, List.filterMap_cons]
    · simp only [broadcast_from, dif_neg h, List.filterMap_cons]
      symm
      rw [List.filterMap_eq_nil_iff]
      intro j hj
      have hj1 : i + 1 ≤ j := by
        have := (List.mem_range'_1.1 hj).1
        exact this
      have hj2 : ¬ j < NUM_BROWSER := by omega
      simp only [dif_neg hj2]

theorem filterMap_range_fin (n : Nat) (β : Type) (f : Fin n → Option β) :
    (List.range n).filterMap (fun j => if h : j < n then f ⟨j, h⟩ else none) =
      (List.finRange n).filterMap f := by
  rw [← List.map_coe_finRange n, List.filterMap_map]
  congr 1
  funext j
  simp only [Function.comp, dif_pos j.isLt]

theorem filterMap_if_eq (α β : Type) (l : List α) (c : α → Bool) (g : α → β) :
    l.filterMap (fun a => if c a then some (g a) else none) = (l.filter c).map g := by
  induction l with
  | nil => rfl
  | cons a l ih =>
    by_cases h : c a = true
    · simp [List.filterMap_cons, List.filter_cons, h, ih]
    · simp [List.filterMap_cons, List.filter_cons, h, ih]

/-- Claim C18. `broadcast` calls `send_message` with the unchanged message for
exactly the slots that are in use and attached to the given session, once each
and in increasing slot order, and for no other slot. -/
theorem broadcast_sends (browser_list : Fin NUM_BROWSER → browser_t) (session_id : Int)
    (message : List Char) :
    broadcast browser_list session_id message =
      ((List.finRange NUM_BROWSER).filter (fun k =>
        (browser_list k).in_use && decide ((browser_list k).session_id = session_id))).map
        (fun k => ((browser_list k).socket_fd, message)) := by
  unfold broadcast
  rw [broadcast_from_eq, ← List.range_eq_range', ← filterMap_if_eq]
  exact filterMap_range_fin NUM_BROWSER (Int × List Char) (fun k =>
    if (browser_list k).in_use && decide ((browser_list k).session_id = session_id) then
      some ((browser_list k).socket_fd, message)
    else none)

/-! ## `register_browser`: theorems -/

theorem claim_from_all_in_use (browser_list : Fin NUM_BROWSER → browser_t)
    (hfull : ∀ j, (browser_list j).in_use = true) (i fuel : Nat) :
    claim_from browser_list i fuel = none := by
  induction fuel generalizing i with
  | zero => rfl
  | succ fuel ih =>
    by_cases h : i < NUM_BROWSER
    · simp [claim_from, h, hfull ⟨i, h⟩, ih]
    · simp [claim_from, h]

theorem claim_from_none (browser_list : Fin NUM_BROWSER → browser_t) (i fuel : Nat)
    (hnone : claim_from browser_list i fuel = none) (j : Fin NUM_BROWSER)
    (h1 : i ≤ j.val) (h2 : j.val < i + fuel) : (browser_list j).in_use = true := by
  induction fuel generalizing i with
  | zero => omega
  | succ fuel ih =>
    have hi : i < NUM_BROWSER := by have := j.isLt; omega
    simp only [claim_from, dif_pos hi] at hnone
    cases hu : (browser_list ⟨i, hi⟩).in_use with
    | false => simp [hu] at hnone
    | true =>
      simp only [hu, Bool.not_true, Bool.false_eq_true, if_false] at hnone
      by_cases hij : i = j.val
      · have hj : j = ⟨i, hi⟩ := Fin.ext hij.symm
        rw [hj]; exact hu
      · exact ih (i + 1) hnone (by omega) (by omega)

theorem claim_from_free (browser_list : Fin NUM_BROWSER → browser_t)
    (hfree : ∃ k, (browser_list k).in_use = false) :
    ∃ k, claim_from browser_list 0 NUM_BROWSER = some k := by
  cases hc : claim_from browser_list 0 NUM_BROWSER with
  | some k => exact ⟨k, rfl⟩
  | none =>
    obtain ⟨k, hk⟩ := hfree
    have := claim_from_none browser_list 0 NUM_BROWSER hc k (Nat.zero_le _) (by have := k.isLt; omega)
    rw [hk] at this
    exact absurd this (by decide)

theorem fresh_session_id_spec (session_list : head_t V) (rand : Nat → Nat) (k fuel : Nat)
    (session_id : Int) (h : fresh_session_id session_list rand k fuel = some session_id) :
    0 ≤ session_id ∧ session_id ≤ 9999 ∧ map_find session_list session_id = none := by
  induction fuel generalizing k with
  | zero => simp [fresh_session_id] at h
  | succ fuel ih =>
    simp only [fresh_session_id] at h
    cases hf : map_find session_list ((rand k % 10000 : Nat) : Int) with
    | some s =>
      simp only [hf, Option.isSome_some, if_true] at h
      exact ih (k + 1) h
    | none =>
      simp only [hf, Option.isSome_none, Bool.false_eq_true, if_false, Option.some.injEq] at h
      have hlt : rand k % 10000 < 10000 := Nat.mod_lt _ (by decide)
      subst h
      exact ⟨by omega, by omega, hf⟩

theorem fresh_session_id_exists (session_list : head_t V) (rand : Nat → Nat) (k fuel : Nat)
    (h : ∃ m, k ≤ m ∧ m < k + fuel ∧
      map_find session_list ((rand m % 10000 : Nat) : Int) = none) :
    ∃ session_id, fresh_session_id session_list rand k fuel = some session_id := by
  induction fuel generalizing k with
  | zero =>
    obtain ⟨m, h1, h2, _⟩ := h
    omega
  | succ fuel ih =>
    obtain ⟨m, h1, h2, h3⟩ := h
    simp only [fresh_session_id]
    cases hf : map_find session_list ((rand k % 10000 : Nat) : Int) with
    | none => simp
    | some s =>
      simp only [Option.isSome_some, if_true]
      have hmk : m ≠ k := by
        intro e
        rw [e, hf] at h3
        simp at h3
      exact ih (k + 1) ⟨m, by omega, by omega, h3⟩

theorem register_browser_join (fuel : Nat) (server st : server_t V) (fd : Int)
    (rand : Nat → Nat) (block : session_t V) (b0 bid sid : Int)
    (h : register_browser fuel server fd (-1) rand block b0 = some (bid, sid, st)) :
    0 ≤ sid ∧ sid ≤ 9999 ∧ map_find server.session_list sid = none ∧
      st.session_list = (map_insert server.session_list sid block).2 := by
  simp only [register_browser, join_session, if_true] at h
  cases hf : fresh_session_id server.session_list rand 0 fuel with
  | none => simp [hf] at h
  | some session_id =>
    have hspec := fresh_session_id_spec server.session_list rand 0 fuel session_id hf
    simp only [hf] at h
    cases hc : claim_from server.browser_list 0 NUM_BROWSER with
    | some k =>
      simp only [hc, Option.some.injEq, Prod.mk.injEq] at h
      obtain ⟨_, h2, h3⟩ := h
      subst h2
      exact ⟨hspec.1, hspec.2.1, hspec.2.2, by rw [← h3]⟩
    | none =>
      simp only [hc] at h
      by_cases hb : 0 ≤ b0 ∧ b0 < (NUM_BROWSER : Int)
      · simp only [dif_pos hb, Option.some.injEq, Prod.mk.injEq] at h
        obtain ⟨_, h2, h3⟩ := h
        subst h2
        exact ⟨hspec.1, hspec.2.1, hspec.2.2, by rw [← h3]⟩
      · rw [dif_neg hb] at h; simp at h

theorem register_browser_requested (fuel : Nat) (server st : server_t V) (fd : Int)
    (requested : Int) (rand : Nat → Nat) (block : session_t V) (b0 bid sid : Int)
    (hreq : requested ≠ -1)
    (h : register_browser fuel server fd requested rand block b0 = some (bid, sid, st)) :
    sid = requested ∧ st.session_list = server.session_list := by
  simp only [register_browser, join_session, if_neg hreq] at h
  cases hc : claim_from server.browser_list 0 NUM_BROWSER with
  | some k =>
    simp only [hc, Option.some.injEq, Prod.mk.injEq] at h
    obtain ⟨_, h2, h3⟩ := h
    exact ⟨h2.symm, by rw [← h3]⟩
  | none =>
    simp only [hc] at h
    by_cases hb : 0 ≤ b0 ∧ b0 < (NUM_BROWSER : Int)
    · simp only [dif_pos hb, Option.some.injEq, Prod.mk.injEq] at h
      obtain ⟨_, h2, h3⟩ := h
      exact ⟨h2.symm, by rw [← h3]⟩
    · rw [dif_neg hb] at h; simp at h

theorem register_browser_full (fuel : Nat) (server st : server_t V) (fd : Int)
    (requested : Int) (rand : Nat → Nat) (block : session_t V) (b0 bid sid : Int)
    (hfull : ∀ j, (server.browser_list j).in_use = true)
    (h : register_browser fuel server fd requested rand block b0 = some (bid, sid, st)) :
    bid = b0 ∧ ∃ k : Fin NUM_BROWSER, (k.val : Int) = b0 ∧
      st.browser_list = attach_slot server.browser_list k sid := by
  have hc := claim_from_all_in_use server.browser_list hfull 0 NUM_BROWSER
  simp only [register_browser, hc] at h
  cases hj : join_session fuel server.session_list requested rand block with
  | none => simp [hj] at h
  | some r =>
    obtain ⟨session_id, session_list1⟩ := r
    simp only [hj] at h
    by_cases hb : 0 ≤ b0 ∧ b0 < (NUM_BROWSER : Int)
    · simp only [dif_pos hb, Option.some.injEq, Prod.mk.injEq] at h
      obtain ⟨h1, h2, h3⟩ := h
      subst h2
      refine ⟨h1.symm, ⟨b0.toNat, by omega⟩, by simp only []; omega, by rw [← h3]⟩
    · rw [dif_neg hb] at h; simp at h

/-- Claim C13 (the code departs from it). For a join message whose value is not
-1, `register_browser` returns that value as the session ID and leaves the
registry as it was. On a server that has just started, the join message 42
attaches the browser to session 42 while the registry stays empty, and the
command `a = 5` for that session then dereferences the pointer that `map_find`
never set. -/
theorem join_unregistered_not_created :
    (∀ (fuel : Nat) (server st : server_t Int) (fd requested : Int) (rand : Nat → Nat)
        (block : session_t Int) (b0 bid sid : Int),
      requested ≠ -1 →
      register_browser fuel server fd requested rand block b0 = some (bid, sid, st) →
      sid = requested ∧ st.session_list = server.session_list) ∧
    (register_browser 0 started_server 4 42 (fun _ => 0) stale_block 0).map
      (fun r => (r.1, r.2.1, r.2.2.session_list.keys,
        (map_find r.2.2.session_list 42).isSome)) = some (0, 42, [], false) ∧
    ((register_browser 0 started_server 4 42 (fun _ => 0) stale_block 0).bind
      (fun r => process_message intArith r.2.2.session_list 42 "a = 5".toList)).isNone
        = true := by
  refine ⟨?_, by decide, by decide⟩
  intro fuel server st fd requested rand block b0 bid sid hreq h
  exact register_browser_requested fuel server st fd requested rand block b0 bid sid hreq h

/-- Claim C14, as the claim states it, fails: on a registry that already holds
128 sessions, a join with -1 and the draw 500 returns the session ID 500, which
`map_find` does not find afterwards, because `map_insert` refuses at capacity
and its result is dropped. -/
theorem join_at_capacity_not_registered :
    (register_browser 1 ⟨free_table, full_registry⟩ 4 (-1) (fun _ => 500) stale_block 0).map
      (fun r => (r.1, r.2.1, (map_find r.2.2.session_list 500).isSome)) =
        some (0, 500, false) := by
  decide

/-- Claim C14, amended. On a server with a free slot and a registry below
capacity, when one of the first `n + 1` draws of the random generator is an
unregistered identifier, a join with -1 returns a session identifier in
0..9999 that was not registered before the call and is registered after it;
and the identifier that a following join with -1 returns is a different
one. -/
theorem join_fresh_session (server : server_t V) (fd : Int) (rand : Nat → Nat)
    (block : session_t V) (b0 : Int) (n : Nat)
    (hfree : ∃ k, (server.browser_list k).in_use = false)
    (hcap : server.session_list.size < NUM_SESSIONS)
    (hdraw : ∃ m, m ≤ n ∧
      map_find server.session_list ((rand m % 10000 : Nat) : Int) = none) :
    ∃ bid sid st,
      register_browser (n + 1) server fd (-1) rand block b0 = some (bid, sid, st) ∧
      0 ≤ sid ∧ sid ≤ 9999 ∧ map_find server.session_list sid = none ∧
      (map_find st.session_list sid).isSome = true ∧
      ∀ (fuel2 : Nat) (fd2 : Int) (rand2 : Nat → Nat) (block2 : session_t V)
        (b2 bid2 sid2 : Int) (st2 : server_t V),
        register_browser fuel2 st fd2 (-1) rand2 block2 b2 = some (bid2, sid2, st2) →
        sid2 ≠ sid := by
  obtain ⟨k, hk⟩ := claim_from_free server.browser_list hfree
  obtain ⟨m, hm1, hm2⟩ := hdraw
  obtain ⟨sid, hsid⟩ := fresh_session_id_exists server.session_list rand 0 (n + 1)
    ⟨m, Nat.zero_le _, by omega, hm2⟩
  have hrun : register_browser (n + 1) server fd (-1) rand block b0 =
      some ((k.val : Int), sid,
        ⟨attach_slot (claim_slot server.browser_list k fd) k sid,
          (map_insert server.session_list sid block).2⟩) := by
    simp [register_browser, join_session, hsid, hk]
  obtain ⟨h1, h2, h3, h4⟩ := register_browser_join _ _ _ _ _ _ _ _ _ hrun
  have hfound : map_find (map_insert server.session_list sid block).2 sid = some block :=
    map_find_insert_absent server.session_list sid block hcap h3
  refine ⟨_, sid, _, hrun, h1, h2, h3, by simp [hfound], ?_⟩
  intro fuel2 fd2 rand2 block2 b2 bid2 sid2 st2 hrun2
  obtain ⟨_, _, h5, _⟩ := register_browser_join _ _ _ _ _ _ _ _ _ hrun2
  intro e
  rw [e] at h5
  simp only [hfound] at h5
  exact absurd h5 (by simp)

/-- An instance of `join_fresh_session`: the first join on a server that has
just started, with the draw 500. -/
theorem join_fresh_session_witness :
    (∃ k, (started_server.browser_list k).in_use = false) ∧
    started_server.session_list.size < NUM_SESSIONS ∧
    (∃ m, m ≤ 0 ∧
      map_find started_server.session_list (((fun _ => 500) m % 10000 : Nat) : Int) = none) ∧
    ∃ bid sid st,
      register_browser (0 + 1) started_server 4 (-1) (fun _ => 500) stale_block 0 =
        some (bid, sid, st) ∧
      0 ≤ sid ∧ sid ≤ 9999 ∧ map_find started_server.session_list sid = none ∧
      (map_find st.session_list sid).isSome = true ∧
      ∀ (fuel2 : Nat) (fd2 : Int) (rand2 : Nat → Nat) (block2 : session_t Int)
        (b2 bid2 sid2 : Int) (st2 : server_t Int),
        register_browser fuel2 st fd2 (-1) rand2 block2 b2 = some (bid2, sid2, st2) →
        sid2 ≠ sid :=
  ⟨⟨0, rfl⟩, by decide, ⟨0, le_refl 0, rfl⟩,
    join_fresh_session started_server 4 (fun _ => 500) stale_block 0 0 ⟨0, rfl⟩ (by decide)
      ⟨0, le_refl 0, rfl⟩⟩

/-- Claim C17 (the code departs from it). When every slot is in use, the first
loop of `register_browser` assigns nothing and no failure is returned: the
function goes on with the value the uninitialised `browser_id` holds, returns
it as the browser ID and overwrites the session ID of that slot, or writes
outside the table. With all slots attached to session 7 and the value 5, slot 5
is re-attached to the requested session 1; with the value 500 the write is
outside the table. -/
theorem full_table_overwrites_slot :
    (∀ (fuel : Nat) (server st : server_t Int) (fd requested : Int) (rand : Nat → Nat)
        (block : session_t Int) (b0 bid sid : Int),
      (∀ j, (server.browser_list j).in_use = true) →
      register_browser fuel server fd requested rand block b0 = some (bid, sid, st) →
      bid = b0 ∧ ∃ k : Fin NUM_BROWSER, (k.val : Int) = b0 ∧
        st.browser_list = attach_slot server.browser_list k sid) ∧
    full_table 5 = ⟨true, 8, 7⟩ ∧
    (register_browser 0 ⟨full_table, fresh_registry⟩ 9 1 (fun _ => 0) stale_block 5).map
      (fun r => (r.1, r.2.1, r.2.2.browser_list 5)) = some (5, 1, ⟨true, 8, 1⟩) ∧
    (register_browser 0 ⟨full_table, fresh_registry⟩ 9 1 (fun _ => 0) stale_block 500).isNone
      = true := by
  refine ⟨?_, by decide, ?_, ?_⟩
  · intro fuel server st fd requested rand block b0 bid sid hfull h
    exact register_browser_full fuel server st fd requested rand block b0 bid sid hfull h
  · have hc := claim_from_all_in_use full_table (fun _ => rfl) 0 NUM_BROWSER
    simp only [register_browser, join_session, hc]
    decide
  · have hc := claim_from_all_in_use full_table (fun _ => rfl) 0 NUM_BROWSER
    simp only [register_browser, join_session, hc]
    decide

/-! ## `session_to_str`: theorems -/

theorem lines_from_succ (R : Render V) (session : session_t V) (i fuel : Nat)
    (h : i < NUM_VARIABLES) (hused : session.used ⟨i, h⟩ = true) :
    lines_from R session i (fuel + 1) =
      match format_line R i (session.values ⟨i, h⟩) with
      | none => none
      | some line => (lines_from R session (i + 1) fuel).map (fun rest => line ++ rest) := by
  rw [lines_from, dif_pos h, if_pos hused]

theorem session_to_str_first_fixed (R : Render V) (L : head_t V) (session_id : Int)
    (s : session_t V) (text : List Char) (hfind : map_find L session_id = some s)
    (hused : s.used 0 = true) (hbelow : R.below_1000 (s.values 0) = true)
    (hrun : session_to_str R L session_id = some text) :
    ∃ rest, text = 'a' :: ' ' :: '=' :: ' ' :: (R.fixed6 (s.values 0) ++ Char.ofNat 10 :: rest) := by
  have hbelow1 : R.below_1000 (s.values ⟨0, by decide⟩) = true := hbelow
  have hstep := lines_from_succ R s 0 25 (by decide) hused
  simp only [session_to_str, hfind] at hrun
  rw [show NUM_VARIABLES = 25 + 1 from rfl, hstep] at hrun
  simp only [format_line, hbelow1, if_true] at hrun
  by_cases hfit : 4 + (R.fixed6 (s.values ⟨0, by decide⟩)).length + 1 + 1 ≤ 32
  · simp only [if_pos hfit, Option.map_eq_some'] at hrun
    obtain ⟨rest, _, hrest⟩ := hrun
    refine ⟨rest, ?_⟩
    rw [← hrest]
    have hc : Char.ofNat (97 + 0) = 'a' := by decide
    simp only [hc, List.cons_append, List.append_assoc, List.singleton_append]
    rfl
  · simp only [if_neg hfit] at hrun
    exact absurd hrun (by simp)

/-- Claim C15 (the code departs from it). `session_to_str` compares the value
itself with 1000, not its magnitude: whenever `a` is used with a value of
-1000 or less and the function returns, the line of `a` is in the fixed-point
format. After the accepted command `a = 0 - 5000` the text is
`a = -5000.000000`, fixed-point although the magnitude 5000 is not below 1000;
for `e = 2000 * 2` it is the scientific `e = 4.00000000e+03`; and after
`a = 0 - 1000000000000000000` the fixed-point line does not fit `line[32]`. -/
theorem negative_value_rendered_fixed :
    (∀ (L : head_t Int) (session_id : Int) (s : session_t Int) (text : List Char),
      map_find L session_id = some s → s.used 0 = true → s.values 0 ≤ -1000 →
      session_to_str intRender L session_id = some text →
      ∃ rest, text =
        'a' :: ' ' :: '=' :: ' ' :: (int_fixed6 (s.values 0) ++ Char.ofNat 10 :: rest)) ∧
    ((process_message intArith fresh_registry 1 "a = 0 - 5000".toList).bind
      (fun r => if r.1 then session_to_str intRender r.2 1 else none)) =
        some ("a = -5000.000000".toList ++ [Char.ofNat 10]) ∧
    ¬ (|(-5000 : Int)| < 1000) ∧
    ((process_message intArith fresh_registry 1 "e = 2000 * 2".toList).bind
      (fun r => if r.1 then session_to_str intRender r.2 1 else none)) =
        some ("e = 4.00000000e+03".toList ++ [Char.ofNat 10]) ∧
    ((process_message intArith fresh_registry 1 "a = 0 - 1000000000000000000".toList).map
      (fun r => (r.1, session_to_str intRender r.2 1))) = some (true, none) := by
  refine ⟨?_, by decide, by decide, by decide, by decide⟩
  intro L session_id s text hfind hused hneg hrun
  have hbelow : intRender.below_1000 (s.values 0) = true := by
    simp only [intRender, decide_eq_true_eq]
    omega
  exact session_to_str_first_fixed intRender L session_id s text hfind hused hbelow hrun

/-! ## The session files: theorems -/

theorem load_from_skips (read_into : head_t V → Nat → session_t V → Option (head_t V))
    (disk : Int → Option (session_t V)) (session_list : head_t V) (i fuel : Nat)
    (h : ∀ j : Nat, i ≤ j → (j : Int) < NUM_SESSIONS → disk (j : Int) = none) :
    load_from read_into disk session_list i fuel = some session_list := by
  induction fuel generalizing i with
  | zero => rfl
  | succ fuel ih =>
    by_cases hi : (i : Int) < NUM_SESSIONS
    · simp only [load_from, if_pos hi, h i (le_refl i) hi]
      exact ih (i + 1) (fun j hj hj1 => h j (by omega) hj1)
    · simp only [load_from, if_neg hi]

/-- Claim C16 (the code departs from it). `load_all_sessions` opens the files of
the identifiers 0..127 only. When the file of an identifier from 128 on is the
one that `save_session` wrote, a restarted server skips every file it looks
for and its registry stays empty, whatever record was saved and whatever the
read into `&session_list[i]` would do; so session 200 is not found after the
restart. -/
theorem load_skips_saved_session :
    (∀ (read_into : head_t Int → Nat → session_t Int → Option (head_t Int))
        (session_id : Int) (record : session_t Int), 128 ≤ session_id →
      load_all_sessions read_into (save_session (fun _ => none) session_id record)
        head_t.empty = some head_t.empty) ∧
    (∀ read_into : head_t Int → Nat → session_t Int → Option (head_t Int),
      (load_all_sessions read_into (save_session (fun _ => none) 200 sample_session)
        head_t.empty).map (fun h => (map_find h 200).isSome) = some false) := by
  have hgen : ∀ (read_into : head_t Int → Nat → session_t Int → Option (head_t Int))
      (session_id : Int) (record : session_t Int), 128 ≤ session_id →
      load_all_sessions read_into (save_session (fun _ => none) session_id record)
        head_t.empty = some head_t.empty := by
    intro read_into session_id record hid
    apply load_from_skips
    intro j _ hj
    have hne : (j : Int) ≠ session_id := by
      simp only [NUM_SESSIONS] at hj
      omega
    simp [save_session, Function.update_noteq hne]
  refine ⟨hgen, fun read_into => ?_⟩
  rw [hgen read_into 200 sample_session (by decide)]
  rfl

/-! ## The handler's guard: theorems -/

theorem skip_spaces_all (message : List Char) (h : ∀ c ∈ message, c = ' ') :
    skip_spaces message = [] := by
  induction message with
  | nil => rfl
  | cons c rest ih =>
    have hc : c = ' ' := h c (by simp)
    simp only [skip_spaces, hc, if_true]
    exact ih (fun d hd => h d (List.mem_cons_of_mem c hd))

theorem skip_spaces_some (message : List Char) (h : ∃ c ∈ message, c ≠ ' ') :
    skip_spaces message ≠ [] := by
  induction message with
  | nil =>
    obtain ⟨c, hc, _⟩ := h
    simp at hc
  | cons d rest ih =>
    by_cases hd : d = ' '
    · simp only [skip_spaces, hd, if_true]
      obtain ⟨c, hc, hne⟩ := h
      rcases List.mem_cons.1 hc with e | e
      · exact absurd (e.trans hd) hne
      · exact ih ⟨c, e, hne⟩
    · simp [skip_spaces, hd]

theorem process_message_spaces (A : Arith V) (L : head_t V) (session_id : Int)
    (message : List Char) (h : ∀ c ∈ message, c = ' ') :
    process_message A L session_id message = none := by
  simp [process_message, process_tokens, strtok, skip_spaces_all message h]

theorem process_message_verdict (A : Arith V) (L : head_t V) (session_id : Int)
    (s : session_t V) (message : List Char) (hfind : map_find L session_id = some s)
    (h : ∃ c ∈ message, c ≠ ' ') :
    ∃ b L1, process_message A L session_id message = some (b, L1) := by
  have hne : tokens message ≠ [] := by
    cases hs : skip_spaces message with
    | nil => exact absurd hs (skip_spaces_some message h)
    | cons c rest =>
      have ht : strtok message = some (scan_token (c :: rest)) := by simp [strtok, hs]
      rw [tokens_of_some message _ _ ht]
      simp
  obtain ⟨b, s1, h1, _⟩ := interp_total A s (tokens message) hne
  exact ⟨b, L.store session_id s1,
    (process_message_some_iff A L _ session_id s message b hfind).2 ⟨s1, h1, rfl⟩⟩

/-- Claim C20 (the code departs from it). A message that consists of space
characters only passes the tests of `browser_handler`, and in
`process_message` the first `strtok` call returns the null pointer, to which
`strlen` is applied. A message with at least one character that is not a space
yields a first token, and `process_message` returns a verdict on a registered
session. -/
theorem spaces_only_message_null_token :
    (∀ (L : head_t Int) (session_id : Int) (message : List Char),
      message ≠ [] → (∀ c ∈ message, c = ' ') →
      forwarded message = true ∧ strtok message = none ∧
      process_message intArith L session_id message = none) ∧
    forwarded " ".toList = true ∧
    (process_message intArith fresh_registry 1 " ".toList).isNone = true ∧
    (∀ (L : head_t Int) (session_id : Int) (s : session_t Int) (message : List Char),
      map_find L session_id = some s → (∃ c ∈ message, c ≠ ' ') →
      ∃ b L1, process_message intArith L session_id message = some (b, L1)) := by
  refine ⟨?_, by decide, by decide, ?_⟩
  · intro L session_id message hne hsp
    refine ⟨?_, by simp [strtok, skip_spaces_all message hsp],
      process_message_spaces intArith L session_id message hsp⟩
    match message, hne, hsp with
    | c :: rest, _, hsp =>
      have hc : c = ' ' := hsp c (by simp)
      subst hc
      have h1 : ¬ (' ' :: rest = "EXIT".toList) := by
        intro e
        have := (List.cons.inj e).1
        exact absurd this (by decide)
      have h2 : ¬ (' ' :: rest = "exit".toList) := by
        intro e
        have := (List.cons.inj e).1
        exact absurd this (by decide)
      have h3 : ¬ (' ' = Char.ofNat 0) := by decide
      simp [forwarded, first_char, h1, h2, h3]
  · intro L session_id s message hfind hex
    exact process_message_verdict intArith L session_id s message hfind hex

end Server
